import Mathlib

/-!
Shallow embedding of the geometric core of the js-doom-builder map editor
(DoomMap, Vertex/Line/Sector/Thing, the coalescing History, the spatial
grid and the sector rebuild), together with theorems settling the frozen
claims about it.

Conventions of the embedding:
* JS numbers are embedded as `Int` where the source only ever holds
  integers (all map coordinates are rounded to the integer grid on entry),
  and as exact unnormalized fractions (`Frac`) for the intermediate
  segment parameters of `addLine` and the ray-cast test.
* The epsilon tests of the source (`1e-12`) are exact on integer inputs:
  for an integer cross product, `|cross| < 1e-12` holds iff `cross = 0`,
  and an integer overlap length is `> 1e-12` iff it is `≥ 1`.  The
  embedding therefore uses the exact comparisons.
* `Math.atan2` is used by the source only to ORDER directions of integer
  vectors (sorting outgoing edges and picking the smallest positive CCW
  turn).  The embedding replaces the floating-point angles by exact
  integer comparators (`angLtB`, `ccwClass`, `ccwDeltaLtB`) realising the
  same order; on the small integer coordinates of all runs considered
  here the double computations of the source realise exactly this order.
* JS object identity is embedded by giving every heap object a numeric id;
  JS `Map`/`Set` (insertion ordered) become association lists / duplicate
  free lists in insertion order.
* JS exceptions become `Except String`.
-/

/-! ## Geometry utilities (src Utility class) -/

/-- Orientation of three points via the sign of the 2D cross product of
(q - p) x (r - p); 1 = CCW, -1 = CW, 0 = collinear.  The source compares
the float cross with 1e-12; on integer inputs this is an exact zero test. -/
def orientation (px py qx qy rx ry : Int) : Int :=
  let cross := (qx - px) * (ry - py) - (qy - py) * (rx - px)
  if cross = 0 then 0 else if cross > 0 then 1 else -1

/-- True if (qx, qy) lies in the axis aligned bounding box of (px, py) and
(rx, ry); the source widens the box by 1e-12, which is the identity on the
integer grid. -/
def onSegment (px py qx qy rx ry : Int) : Bool :=
  min px rx ≤ qx && qx ≤ max px rx && min py ry ≤ qy && qy ≤ max py ry

/-- Proper interior crossing of segments AB and CD: both orientation pairs
strict and of opposite signs. -/
def segmentsProperlyIntersect (ax ay bx bY cx cy dx dy : Int) : Bool :=
  let o1 := orientation ax ay bx bY cx cy
  let o2 := orientation ax ay bx bY dx dy
  let o3 := orientation cx cy dx dy ax ay
  let o4 := orientation cx cy dx dy bx bY
  o1 * o2 < 0 && o3 * o4 < 0

/-- True if collinear segments AB and CD overlap by more than a single
shared endpoint: both endpoints of CD collinear with AB and the 1-D
overlap along the dominant axis has positive length (the source compares
with 1e-12, exact on integers). -/
def collinearOverlapMoreThanEndpoint (ax ay bx bY cx cy dx dy : Int) : Bool :=
  if orientation ax ay bx bY cx cy ≠ 0 then false
  else if orientation ax ay bx bY dx dy ≠ 0 then false
  else
    let useX := (ax - bx).natAbs ≥ (ay - bY).natAbs
    let a0 := if useX then ax else ay
    let a1 := if useX then bx else bY
    let c0 := if useX then cx else cy
    let c1 := if useX then dx else dy
    let s1 := min a0 a1
    let e1 := max a0 a1
    let s2 := min c0 c1
    let e2 := max c0 c1
    min e1 e2 - max s1 s2 > 0

/-- Twice the shoelace signed area of the flat polygon [x0,y0,x1,y1,...];
the source multiplies by 0.5, which does not affect the sign tests it is
used for, so the embedding keeps the doubled integer value. -/
def signedArea2dTwice (xy : List Int) : Int :=
  let n := xy.length
  if n < 6 then 0
  else
    (List.range (n / 2)).foldl
      (fun sum k =>
        let i := 2 * k
        let j := (i + 2) % n
        sum + (xy.getD i 0) * (xy.getD (j + 1) 0) - (xy.getD (i + 1) 0) * (xy.getD j 0))
      0

/-- Exact stand-in for `Math.atan2 y x` ordering: classifies a nonzero
integer direction by which part of (-pi, pi] its angle lies in.
0 = lower half plane (angle in (-pi,0)), 1 = positive x axis (angle 0),
2 = upper half plane (angle in (0,pi)), 3 = negative x axis (angle pi). -/
def angClass (x y : Int) : Nat :=
  if y < 0 then 0 else if y = 0 && x > 0 then 1 else if y > 0 then 2 else 3

/-- Cross product of two integer vectors. -/
def cross2 (x1 y1 x2 y2 : Int) : Int := x1 * y2 - y1 * x2

/-- Exact comparator: `atan2 y1 x1 < atan2 y2 x2` for nonzero integer
vectors.  Within one open half plane the angular spread is below pi, so
the sign of the cross product decides the order. -/
def angLtB (x1 y1 x2 y2 : Int) : Bool :=
  if angClass x1 y1 ≠ angClass x2 y2 then angClass x1 y1 < angClass x2 y2
  else cross2 x1 y1 x2 y2 > 0

/-- Class of the CCW delta `angleToCcw (angle b) (angle c)` in [0, 2pi):
0 = delta 0 (same direction), 1 = delta in (0,pi), 2 = delta pi
(opposite direction), 3 = delta in (pi,2pi). -/
def ccwClass (bx bY cx cy : Int) : Nat :=
  let cr := cross2 bx bY cx cy
  let dt := bx * cx + bY * cy
  if cr = 0 && dt > 0 then 0
  else if cr > 0 then 1
  else if cr = 0 then 2
  else 3

/-- Exact comparator for CCW deltas measured from base vector b:
`angleToCcw b c1 < angleToCcw b c2`. -/
def ccwDeltaLtB (bx bY c1x c1y c2x c2y : Int) : Bool :=
  let k1 := ccwClass bx bY c1x c1y
  let k2 := ccwClass bx bY c2x c2y
  if k1 ≠ k2 then k1 < k2
  else if k1 = 1 || k1 = 3 then cross2 c1x c1y c2x c2y > 0
  else false

/-- An exact rational as an unnormalized fraction with positive
denominator (the embedding of the float intermediate values; all
comparisons are exact cross multiplications over `Int`). -/
structure Frac where
  num : Int
  den : Int
deriving DecidableEq, Repr

/-- Build a fraction from a numerator and a nonzero denominator,
normalizing only the sign of the denominator. -/
def fracMk (n d : Int) : Frac := if d < 0 then { num := -n, den := -d } else { num := n, den := d }

/-- Embed an integer. -/
def fracOfInt (n : Int) : Frac := { num := n, den := 1 }

/-- Exact addition. -/
def fracAdd (a b : Frac) : Frac := { num := a.num * b.den + b.num * a.den, den := a.den * b.den }

/-- Exact subtraction. -/
def fracSub (a b : Frac) : Frac := { num := a.num * b.den - b.num * a.den, den := a.den * b.den }

/-- Multiply by an integer. -/
def fracMulInt (a : Frac) (k : Int) : Frac := { num := a.num * k, den := a.den }

/-- Exact strict comparison (positive denominators). -/
def fracLt (a b : Frac) : Bool := a.num * b.den < b.num * a.den

/-- Exact comparison (positive denominators). -/
def fracLe (a b : Frac) : Bool := a.num * b.den ≤ b.num * a.den

/-- Minimum. -/
def fracMin (a b : Frac) : Frac := if fracLe a b then a else b

/-- Maximum. -/
def fracMax (a b : Frac) : Frac := if fracLe a b then b else a

/-- JS `Math.round` on an exact fraction: `floor (x + 1/2)` (this matches
JS rounding including `Math.round (-0.5) = 0`). -/
def jround (q : Frac) : Int := Int.fdiv (2 * q.num + q.den) (2 * q.den)

/-- Strictly interior ray-cast point-in-polygon test, exact rational
version of the float test of the source (`px < (xj-xi)*(py-yi)/(yj-yi)+xi`
under `(yi > py) != (yj > py)`); boundary excluded. -/
def polygonContainsPoint (xy : List Int) (px py : Int) : Bool :=
  if xy.length < 6 then false
  else
    (List.range (xy.length / 2)).foldl
      (fun inside k =>
        let i := 2 * k
        let j := (i + 2) % xy.length
        let xi := xy.getD i 0
        let yi := xy.getD (i + 1) 0
        let xj := xy.getD j 0
        let yj := xy.getD (j + 1) 0
        let straddles := (yi > py) ≠ (yj > py)
        let hits := straddles &&
          fracLt (fracOfInt px) (fracAdd (fracMk ((xj - xi) * (py - yi)) (yj - yi)) (fracOfInt xi))
        if hits then !inside else inside)
      false

/-- Every vertex of the inner flat polygon strictly inside the outer one. -/
def polygonContainsAllVertices (inner outer : List Int) : Bool :=
  if inner.length < 2 || outer.length < 6 then false
  else
    (List.range (inner.length / 2)).all fun k =>
      polygonContainsPoint outer (inner.getD (2 * k) 0) (inner.getD (2 * k + 1) 0)

/-! ## Data model

Objects live in per-kind heaps keyed by numeric ids (JS object identity);
the arrays and key maps of `DoomMap` hold ids.  All JS `Map`s are keyed by
strings in the source; vertex keys "x,y" and line keys "x0,y0:x1,y1" are
embedded as the tuples they print, which is faithful because the printed
forms are injective and a vertex key is never equal to a line key. -/

/-- Association list lookup (JS `Map.get`, first matching key). -/
def alistLookup {α : Type} : List (Nat × α) → Nat → Option α
  | [], _ => none
  | p :: t, k => if p.1 = k then some p.2 else alistLookup t k

/-- Pointwise update of one heap entry (mutation of the JS object). -/
def alistUpdate {α : Type} (h : List (Nat × α)) (k : Nat) (f : α → α) : List (Nat × α) :=
  h.map fun p => if p.1 = k then (p.1, f p.2) else p

/-- JS `Set.add`: append if absent, keeping insertion order. -/
def setAdd {α : Type} [DecidableEq α] (l : List α) (x : α) : List α :=
  if x ∈ l then l else l ++ [x]

/-- Vertex key "x,y". -/
abbrev VKey := Int × Int

/-- Line key "x0,y0:x1,y1" with the endpoints in canonical order. -/
abbrev LKey := (Int × Int) × (Int × Int)

/-- DoomMap.createLineKey: lexicographic canonical order of the endpoints
(smaller x first, ties by smaller y). -/
def createLineKey (x0 y0 x1 y1 : Int) : LKey :=
  if x0 < x1 || (x0 = x1 && y0 ≤ y1) then ((x0, y0), (x1, y1)) else ((x1, y1), (x0, y0))

/-- Reference to a registered geometry object (vertex / line / sector /
thing), as stored in the spatial grid and the selection. -/
inductive GRef
  | v (id : Nat)
  | l (id : Nat)
  | s (id : Nat)
  | t (id : Nat)
deriving DecidableEq, Repr

/-- Axis aligned bounds (Geometry.bounds). -/
structure BoundsR where
  minX : Int
  minY : Int
  maxX : Int
  maxY : Int
deriving DecidableEq, Repr

/-- Vertex object: immutable coordinates plus the incident line ids in
insertion order (`Vertex.lines`). -/
structure VertexObj where
  x : Int
  y : Int
  lines : List Nat
deriving DecidableEq, Repr

/-- One side of a line (Line.#Side). -/
structure SideObj where
  sector : Option Nat
  sectorOld : Option Nat
  sectorOverride : Option Nat
  textureUpper : String
  textureMiddle : String
  textureLower : String
  xOffset : Int
  yOffset : Int
deriving DecidableEq, Repr

/-- Default-initialised side. -/
def SideObj.init : SideObj :=
  { sector := none
    sectorOld := none
    sectorOverride := none
    textureUpper := ""
    textureMiddle := ""
    textureLower := ""
    xOffset := 0
    yOffset := 0 }

/-- Side.copy: copies the texture and offset data only (NOT the sector
references). -/
def SideObj.copyFrom (dst src : SideObj) : SideObj :=
  { dst with
    textureUpper := src.textureUpper
    textureMiddle := src.textureMiddle
    textureLower := src.textureLower
    xOffset := src.xOffset
    yOffset := src.yOffset }

/-- Line flags (Line.#Flags). -/
structure FlagsObj where
  impassable : Bool
  twoSided : Bool
  upperUnpegged : Bool
  lowerUnpegged : Bool
  secret : Bool
  blockSound : Bool
  dontDraw : Bool
deriving DecidableEq, Repr

/-- Default-initialised flags. -/
def FlagsObj.init : FlagsObj :=
  { impassable := false
    twoSided := false
    upperUnpegged := false
    lowerUnpegged := false
    secret := false
    blockSound := false
    dontDraw := false }

/-- Line object: two vertex ids plus sides and flags. -/
structure LineObj where
  v0 : Nat
  v1 : Nat
  front : SideObj
  back : SideObj
  flags : FlagsObj
deriving DecidableEq, Repr

/-- Thing object. -/
structure ThingObj where
  x : Int
  y : Int
  z : Int
  typeId : Int
  angle : Int
deriving DecidableEq, Repr

/-- Sector properties (Sector.#Properties). -/
structure SectorProps where
  floorHeight : Int
  ceilingHeight : Int
  floorTexture : String
  ceilingTexture : String
  lightLevel : Int
  tag : Int
  special : Int
deriving DecidableEq, Repr

/-- Default sector properties. -/
def SectorProps.init : SectorProps :=
  { floorHeight := 0
    ceilingHeight := 128
    floorTexture := "FLAT1"
    ceilingTexture := "CEIL1"
    lightLevel := 160
    tag := 0
    special := 0 }

/-- Sector object; `inMap` embeds the `#map` back-reference being non-null. -/
structure SectorObj where
  lineIds : List Nat
  flatXY : List Int
  parent : Option Nat
  children : List Nat
  props : SectorProps
  inMap : Bool
  bnds : BoundsR
deriving DecidableEq, Repr

/-- Map metadata (the scalar fields plus the nested flags record). -/
structure MetaFlags where
  monstersEnabled : Bool
  deathmatch : Bool
  allowJump : Bool
  allowFreelook : Bool
  doom2Format : Bool
deriving DecidableEq, Repr

/-- Map metadata record. -/
structure Metadata where
  name : String
  title : String
  author : String
  music : String
  skyTexture : String
  ambientLight : Int
  flags : MetaFlags
deriving DecidableEq, Repr

/-- Initial metadata of a fresh DoomMap. -/
def Metadata.init : Metadata :=
  { name := "MAP01"
    title := "Untitled Map"
    author := ""
    music := ""
    skyTexture := "SKY1"
    ambientLight := 0
    flags := { monstersEnabled := true
               deathmatch := true
               allowJump := false
               allowFreelook := true
               doom2Format := false } }

/-- The spatial grid: columns keyed by cell x, cells keyed by cell y,
each cell a duplicate free list of geometry references; all three levels
keep JS Map/Set insertion order. -/
abbrev Grid := List (Int × List (Int × List GRef))

/-- The state of one DoomMap (its history is threaded separately, see
`MState`, because history actions denote state transformers). -/
structure MapCore where
  nextId : Nat
  vheap : List (Nat × VertexObj)
  lheap : List (Nat × LineObj)
  sheap : List (Nat × SectorObj)
  theap : List (Nat × ThingObj)
  vertices : List Nat
  vertexMap : List (VKey × Nat)
  lines : List Nat
  lineMap : List (LKey × Nat)
  modifiedLines : List Nat
  sectors : List Nat
  things : List Nat
  selection : List GRef
  grid : Grid
  metadata : Metadata
deriving DecidableEq, Repr

/-- The empty, freshly constructed DoomMap. -/
def MapCore.empty : MapCore :=
  { nextId := 0
    vheap := []
    lheap := []
    sheap := []
    theap := []
    vertices := []
    vertexMap := []
    lines := []
    lineMap := []
    modifiedLines := []
    sectors := []
    things := []
    selection := []
    grid := []
    metadata := Metadata.init }

/-- JS `Map.get` on the vertex key map. -/
def vmapGet (m : List (VKey × Nat)) (k : VKey) : Option Nat :=
  match m.find? (fun p => p.1 = k) with
  | some p => some p.2
  | none => none

/-- JS `Map.get` on the line key map. -/
def lmapGet (m : List (LKey × Nat)) (k : LKey) : Option Nat :=
  match m.find? (fun p => p.1 = k) with
  | some p => some p.2
  | none => none

/-- JS `Map.set`: overwrite in place if present, else append. -/
def vmapSet (m : List (VKey × Nat)) (k : VKey) (v : Nat) : List (VKey × Nat) :=
  if (m.find? (fun p => p.1 = k)).isSome then
    m.map fun p => if p.1 = k then (k, v) else p
  else m ++ [(k, v)]

/-- JS `Map.set` on the line key map. -/
def lmapSet (m : List (LKey × Nat)) (k : LKey) (v : Nat) : List (LKey × Nat) :=
  if (m.find? (fun p => p.1 = k)).isSome then
    m.map fun p => if p.1 = k then (k, v) else p
  else m ++ [(k, v)]

/-- JS `Map.delete` by key. -/
def vmapDel (m : List (VKey × Nat)) (k : VKey) : List (VKey × Nat) :=
  m.filter fun p => p.1 ≠ k

/-- JS `Map.delete` on the line key map. -/
def lmapDel (m : List (LKey × Nat)) (k : LKey) : List (LKey × Nat) :=
  m.filter fun p => p.1 ≠ k

/-! ## Spatial grid (DoomMap.#addToSpatialGrid / #removeFromSpatialGrid) -/

/-- Cell size constant of the source. -/
def SPATIAL_GRID_CELL_SIZE : Int := 128

/-- `Math.floor (a / 128)` for integer a: floor division. -/
def cellOf (a : Int) : Int := Int.fdiv a SPATIAL_GRID_CELL_SIZE

/-- The inclusive integer range [lo, hi] (empty when hi < lo), the order
of the JS `for` loops. -/
def intRange (lo hi : Int) : List Int :=
  (List.range (hi + 1 - lo).toNat).map fun (i : Nat) => lo + (i : Int)

/-- All cells covered by a bounds rectangle, x-major as in the source
loops. -/
def cellsOfBounds (b : BoundsR) : List (Int × Int) :=
  (intRange (cellOf b.minX) (cellOf b.maxX)).flatMap fun cx =>
    (intRange (cellOf b.minY) (cellOf b.maxY)).map fun cy => (cx, cy)

/-- Insert one entity into one cell, creating the column and the cell if
absent (appended in insertion order, as JS Map does). -/
def gridAddCell (g : Grid) (cx cy : Int) (e : GRef) : Grid :=
  match g.find? (fun c => c.1 = cx) with
  | none => g ++ [(cx, [(cy, [e])])]
  | some _ =>
      g.map fun c =>
        if c.1 = cx then
          match c.2.find? (fun cell => cell.1 = cy) with
          | none => (c.1, c.2 ++ [(cy, [e])])
          | some _ => (c.1, c.2.map fun cell => if cell.1 = cy then (cell.1, setAdd cell.2 e) else cell)
        else c

/-- Remove one entity from one cell, deleting the cell when it becomes
empty and the column when it becomes empty. -/
def gridRemoveCell (g : Grid) (cx cy : Int) (e : GRef) : Grid :=
  (g.map fun c =>
    if c.1 = cx then
      (c.1, (c.2.map fun cell =>
        if cell.1 = cy then (cell.1, cell.2.filter (· ≠ e)) else cell).filter
          fun cell => cell.2 ≠ [])
    else c).filter fun c => c.2 ≠ []

/-- DoomMap.#addToSpatialGrid. -/
def gridAdd (g : Grid) (e : GRef) (b : BoundsR) : Grid :=
  (cellsOfBounds b).foldl (fun g c => gridAddCell g c.1 c.2 e) g

/-- DoomMap.#removeFromSpatialGrid. -/
def gridRemove (g : Grid) (e : GRef) (b : BoundsR) : Grid :=
  (cellsOfBounds b).foldl (fun g c => gridRemoveCell g c.1 c.2 e) g

/-! ## Bounds of entities -/

/-- Coordinates of a heap vertex (total with a default; every id used in
an error free run is present). -/
def vcoord (m : MapCore) (vid : Nat) : Int × Int :=
  match alistLookup m.vheap vid with
  | some v => (v.x, v.y)
  | none => (0, 0)

/-- Bounds of a vertex object. -/
def vertexBounds (v : VertexObj) : BoundsR :=
  { minX := v.x, minY := v.y, maxX := v.x, maxY := v.y }

/-- Bounds of a line: the box of its two endpoints (computed in the Line
constructor; the endpoints are immutable, so recomputation is faithful). -/
def lineBounds (m : MapCore) (l : LineObj) : BoundsR :=
  let p0 := vcoord m l.v0
  let p1 := vcoord m l.v1
  { minX := min p0.1 p1.1, minY := min p0.2 p1.2, maxX := max p0.1 p1.1, maxY := max p0.2 p1.2 }

/-- Bounds of a thing. -/
def thingBounds (t : ThingObj) : BoundsR :=
  { minX := t.x, minY := t.y, maxX := t.x, maxY := t.y }

/-- Bounds of any registered geometry reference. -/
def grefBounds (m : MapCore) (g : GRef) : BoundsR :=
  match g with
  | .v vid => (match alistLookup m.vheap vid with
               | some v => vertexBounds v
               | none => { minX := 0, minY := 0, maxX := 0, maxY := 0 })
  | .l lid => (match alistLookup m.lheap lid with
               | some l => lineBounds m l
               | none => { minX := 0, minY := 0, maxX := 0, maxY := 0 })
  | .s sid => (match alistLookup m.sheap sid with
               | some s => s.bnds
               | none => { minX := 0, minY := 0, maxX := 0, maxY := 0 })
  | .t tid => (match alistLookup m.theap tid with
               | some t => thingBounds t
               | none => { minX := 0, minY := 0, maxX := 0, maxY := 0 })

/-- Line key of a heap line from its endpoint coordinates. -/
def lineKeyOf (m : MapCore) (l : LineObj) : LKey :=
  let p0 := vcoord m l.v0
  let p1 := vcoord m l.v1
  createLineKey p0.1 p0.2 p1.1 p1.2

/-! ## Object constructors (Vertex / Line / Thing) -/

/-- `new Vertex(x, y)`: allocate a fresh vertex object. -/
def mkVertex (m : MapCore) (x y : Int) : MapCore × Nat :=
  let vid := m.nextId
  ({ m with nextId := vid + 1, vheap := m.vheap ++ [(vid, { x := x, y := y, lines := [] })] }, vid)

/-- `new Line(v0, v1)` with the given side and flag data (the clone paths
copy style data onto the fresh line right after construction): allocates
the line and registers it into both endpoint incidence lists. -/
def mkLine (m : MapCore) (v0 v1 : Nat) (front back : SideObj) (flags : FlagsObj) : MapCore × Nat :=
  let lid := m.nextId
  let lo : LineObj := { v0 := v0, v1 := v1, front := front, back := back, flags := flags }
  let m := { m with nextId := lid + 1, lheap := m.lheap ++ [(lid, lo)] }
  let m := { m with vheap := alistUpdate m.vheap v0 (fun v => { v with lines := v.lines ++ [lid] }) }
  let m := { m with vheap := alistUpdate m.vheap v1 (fun v => { v with lines := v.lines ++ [lid] }) }
  (m, lid)

/-- `new Thing(x, y, z, typeId, angle)`. -/
def mkThing (m : MapCore) (x y z typeId angle : Int) : MapCore × Nat :=
  let tid := m.nextId
  ({ m with nextId := tid + 1, theap := m.theap ++ [(tid, { x := x, y := y, z := z, typeId := typeId, angle := angle })] }, tid)

/-- Line.clearVertices: detach the line from its endpoint incidence lists
(throws when the line is missing from either list). -/
def clearVertices (m : MapCore) (lid : Nat) : Except String MapCore := do
  let some l := alistLookup m.lheap lid | .error ("Missing line object")
  let some ov0 := alistLookup m.vheap l.v0 | .error ("Missing vertex object")
  let some ov1 := alistLookup m.vheap l.v1 | .error ("Missing vertex object")
  if lid ∉ ov0.lines || lid ∉ ov1.lines then
    .error ("Line missing from vertices")
  else
    let m := { m with vheap := alistUpdate m.vheap l.v0 (fun v => { v with lines := v.lines.erase lid }) }
    pure { m with vheap := alistUpdate m.vheap l.v1 (fun v => { v with lines := v.lines.erase lid }) }

/-- Line.clone: resolve the (possibly overridden) endpoint coordinates
through the CURRENT vertex map and build a fresh line with copied side
style and flags (sector references are not copied). -/
def cloneLine (m : MapCore) (lid : Nat) (ov0 ov1 : Option Nat) : Except String (MapCore × Nat) := do
  let some l := alistLookup m.lheap lid | .error ("Missing line object")
  let p0 := vcoord m (ov0.getD l.v0)
  let p1 := vcoord m (ov1.getD l.v1)
  let some v0 := vmapGet m.vertexMap p0 | .error ("Missing vertex for clone")
  let some v1 := vmapGet m.vertexMap p1 | .error ("Missing vertex for clone")
  pure (mkLine m v0 v1 (SideObj.init.copyFrom l.front) (SideObj.init.copyFrom l.back) l.flags)

/-! ## Sector properties (setSectorProperty support) -/

/-- The property names of Sector.#Properties (`property in properties`). -/
inductive SProp
  | floorHeight
  | ceilingHeight
  | floorTexture
  | ceilingTexture
  | lightLevel
  | tag
  | special
deriving DecidableEq, Repr

/-- A JS scalar value (number / string / boolean). -/
inductive PVal
  | num (n : Int)
  | str (s : String)
  | boo (b : Bool)
deriving DecidableEq, Repr

/-- Read a sector property as a scalar. -/
def propGet (p : SectorProps) : SProp → PVal
  | .floorHeight => .num p.floorHeight
  | .ceilingHeight => .num p.ceilingHeight
  | .floorTexture => .str p.floorTexture
  | .ceilingTexture => .str p.ceilingTexture
  | .lightLevel => .num p.lightLevel
  | .tag => .num p.tag
  | .special => .num p.special

/-- Write a sector property (only with a value of the matching type). -/
def propSet (p : SectorProps) (sp : SProp) (v : PVal) : SectorProps :=
  match sp, v with
  | .floorHeight, .num n => { p with floorHeight := n }
  | .ceilingHeight, .num n => { p with ceilingHeight := n }
  | .floorTexture, .str s => { p with floorTexture := s }
  | .ceilingTexture, .str s => { p with ceilingTexture := s }
  | .lightLevel, .num n => { p with lightLevel := n }
  | .tag, .num n => { p with tag := n }
  | .special, .num n => { p with special := n }
  | _, _ => p

/-- `typeof value === typeof properties[property]`. -/
def sameKind : PVal → PVal → Bool
  | .num _, .num _ => true
  | .str _, .str _ => true
  | .boo _, .boo _ => true
  | _, _ => false

/-- The JS property-name string passed as the history `parameter`. -/
def spropName : SProp → String
  | .floorHeight => "floorHeight"
  | .ceilingHeight => "ceilingHeight"
  | .floorTexture => "floorTexture"
  | .ceilingTexture => "ceilingTexture"
  | .lightLevel => "lightLevel"
  | .tag => "tag"
  | .special => "special"

/-! ## History (src History class)

An action of the source holds two thunks closing over the variables of
its call site.  The embedding represents each recorded action by the data
those closures capture (`HistAction`) and interprets the thunks with
`runDo` / `runUndo`; the surrounding `target` / `parameter` / `coalescing`
bookkeeping of History.#Action is `ActionRec`.  The undo stack is a Lean
list with its head as the JS array top. -/

/-- The value of History.#Action.target: the source stores either a key
string, an object reference, or null (embedded by `Option Target`).
Key strings never collide with object references, and vertex key strings
never collide with line key strings. -/
inductive Target
  | vkey (k : VKey)
  | lkey (k : LKey)
  | sObj (id : Nat)
  | lObj (id : Nat)
  | mapObj
deriving DecidableEq, Repr

/-- The captured data of the do/undo closure pairs recorded by the map
core (one constructor per `history.do` call site used here). -/
inductive HistAction
  | addVertexA (key : VKey) (vid : Nat)
  | addLineA (key : LKey) (lid : Nat)
  | removeLineA (key : LKey) (lid : Nat) (idx : Nat)
  | addThingA (tid : Nat)
  | setSecPropA (sid : Nat) (p : SProp) (v last : PVal)
deriving DecidableEq, Repr

/-- One recorded action (History.#Action). -/
structure ActionRec where
  act : HistAction
  target : Option Target
  param : Option String
  coalescing : Bool
deriving DecidableEq, Repr

/-- The two stacks of a History instance. -/
structure HistState where
  stack : List ActionRec
  redoStack : List ActionRec
deriving DecidableEq, Repr

/-- A map together with its history. -/
structure MState where
  core : MapCore
  hist : HistState
deriving DecidableEq, Repr

/-- The empty map with empty history. -/
def MState.empty : MState :=
  { core := MapCore.empty, hist := { stack := [], redoStack := [] } }

/-- History.undoCount. -/
def undoCount (st : MState) : Nat := st.hist.stack.length

/-- Interpretation of the `doFunc` thunks. -/
def runDo (a : HistAction) (m : MapCore) : Except String MapCore :=
  match a with
  | .addVertexA key vid =>
      let m := { m with vertices := m.vertices ++ [vid], vertexMap := vmapSet m.vertexMap key vid }
      pure { m with grid := gridAdd m.grid (.v vid) (grefBounds m (.v vid)) }
  | .addLineA key lid =>
      let m := { m with modifiedLines := setAdd m.modifiedLines lid,
                        lines := m.lines ++ [lid], lineMap := lmapSet m.lineMap key lid }
      pure { m with grid := gridAdd m.grid (.l lid) (grefBounds m (.l lid)) }
  | .removeLineA key lid idx => do
      let m := { m with modifiedLines := setAdd m.modifiedLines lid }
      let m := { m with grid := gridRemove m.grid (.l lid) (grefBounds m (.l lid)) }
      let m ← clearVertices m lid
      pure { m with lines := m.lines.eraseIdx idx, lineMap := lmapDel m.lineMap key }
  | .addThingA tid =>
      if tid ∈ m.things then pure m
      else
        let m := { m with things := m.things ++ [tid] }
        pure { m with grid := gridAdd m.grid (.t tid) (grefBounds m (.t tid)) }
  | .setSecPropA sid p v _ =>
      pure { m with sheap := alistUpdate m.sheap sid (fun s => { s with props := propSet s.props p v }) }

/-- Interpretation of the `undoFunc` thunks. -/
def runUndo (a : HistAction) (m : MapCore) : Except String MapCore :=
  match a with
  | .addVertexA key _ =>
      (match vmapGet m.vertexMap key with
       | some vid =>
           let m := { m with grid := gridRemove m.grid (.v vid) (grefBounds m (.v vid)) }
           pure { m with vertices := m.vertices.erase vid, vertexMap := vmapDel m.vertexMap key }
       | none => pure m)
  | .addLineA key _ =>
      (match lmapGet m.lineMap key with
       | some lid => do
           let m := { m with modifiedLines := setAdd m.modifiedLines lid }
           let m := { m with grid := gridRemove m.grid (.l lid) (grefBounds m (.l lid)) }
           let m ← clearVertices m lid
           pure { m with lines := m.lines.erase lid, lineMap := lmapDel m.lineMap key }
       | none => pure m)
  | .removeLineA key lid _ =>
      (match lmapGet m.lineMap key with
       | some _ => pure m
       | none => do
           let (m, nlid) ← cloneLine m lid none none
           let m := { m with modifiedLines := setAdd m.modifiedLines nlid,
                             lines := m.lines ++ [nlid], lineMap := lmapSet m.lineMap key nlid }
           pure { m with grid := gridAdd m.grid (.l nlid) (grefBounds m (.l nlid)) })
  | .addThingA tid =>
      if tid ∈ m.things then
        let m := { m with grid := gridRemove m.grid (.t tid) (grefBounds m (.t tid)) }
        pure { m with things := m.things.erase tid }
      else pure m
  | .setSecPropA sid p _ last =>
      pure { m with sheap := alistUpdate m.sheap sid (fun s => { s with props := propSet s.props p last }) }

/-- History.do: coalesce with the top of the undo stack when it is
coalescing with the same target and parameter (keeping the redo stack),
otherwise push and clear the redo stack; then execute the do thunk once. -/
def histDo (st : MState) (a : ActionRec) : Except String MState :=
  let replace :=
    match st.hist.stack with
    | last :: _ => last.coalescing && last.target == a.target && last.param == a.param
    | [] => false
  let hist' :=
    if replace then { stack := a :: st.hist.stack.tail, redoStack := st.hist.redoStack }
    else { stack := a :: st.hist.stack, redoStack := [] }
  (runDo a.act st.core).map fun c => { core := c, hist := hist' }

/-- History.undo: pop the undo stack, run the undo thunk, push onto redo. -/
def histUndo (st : MState) : Except String MState :=
  match st.hist.stack with
  | [] => pure st
  | a :: rest =>
      (runUndo a.act st.core).map fun c =>
        { core := c, hist := { stack := rest, redoStack := a :: st.hist.redoStack } }

/-- History.redo: pop the redo stack, run the do thunk, push onto undo. -/
def histRedo (st : MState) : Except String MState :=
  match st.hist.redoStack with
  | [] => pure st
  | a :: rest =>
      (runDo a.act st.core).map fun c =>
        { core := c, hist := { stack := a :: st.hist.stack, redoStack := rest } }

/-! ## Registration helpers (DoomMap.#addVertex / #addLine / #removeLine /
#addThing), each a `history.do` call with the captured data of its
closures; the targets and parameters are exactly the arguments of the
source call sites (vertex key / line key as target, no parameter, default
coalescing = true). -/

/-- DoomMap.#addVertex on an already constructed vertex object. -/
def regAddVertex (st : MState) (vid : Nat) : Except String MState :=
  let key := vcoord st.core vid
  histDo st { act := .addVertexA key vid, target := some (.vkey key), param := none, coalescing := true }

/-- DoomMap.#addLine on an already constructed line object. -/
def regAddLine (st : MState) (lid : Nat) : Except String MState :=
  let key :=
    match alistLookup st.core.lheap lid with
    | some l => lineKeyOf st.core l
    | none => ((0, 0), (0, 0))
  histDo st { act := .addLineA key lid, target := some (.lkey key), param := none, coalescing := true }

/-- DoomMap.#removeLine (captures the array index before recording). -/
def regRemoveLine (st : MState) (lid : Nat) : Except String MState := do
  let some idx := st.core.lines.indexOf? lid | .error ("Attempted to remove non-existent line")
  let key :=
    match alistLookup st.core.lheap lid with
    | some l => lineKeyOf st.core l
    | none => ((0, 0), (0, 0))
  histDo st { act := .removeLineA key lid idx, target := some (.lkey key), param := none, coalescing := true }

/-- DoomMap.#addThing: note that target and parameter stay null and
coalescing keeps its default of true. -/
def regAddThing (st : MState) (tid : Nat) : Except String MState :=
  histDo st { act := .addThingA tid, target := none, param := none, coalescing := true }

/-- DoomMap.addThing: construct the thing and register it. -/
def addThing (st : MState) (x y z typeId : Int) : Except String (MState × Nat) := do
  let (c, tid) := mkThing st.core x y z typeId 0
  let st ← regAddThing { st with core := c } tid
  pure (st, tid)

/-- DoomMap.setSectorProperty: validate, skip no-ops, and record a
coalescing action with the sector as target and the property name as
parameter. -/
def setSectorProperty (st : MState) (sid : Nat) (p : SProp) (v : PVal) : Except String MState := do
  let some s := alistLookup st.core.sheap sid | .error ("Missing sector object")
  if !sameKind v (propGet s.props p) then
    .error ("Invalid sector property")
  else
    let last := propGet s.props p
    if last == v then
      pure st
    else
      histDo st { act := .setSecPropA sid p v last,
                  target := some (.sObj sid), param := some (spropName p), coalescing := true }

/-! ## Spatial queries (DoomMap.#iterateGeometry with bounds) -/

/-- The contents of one grid cell. -/
def gridCellRefs (g : Grid) (cx cy : Int) : List GRef :=
  match g.find? (fun c => c.1 = cx) with
  | none => []
  | some col =>
      match col.2.find? (fun cell => cell.1 = cy) with
      | none => []
      | some cell => cell.2

/-- All references met when walking the cells of a query rectangle in the
numeric order of the source loops, deduplicated by the per-query visited
set (first occurrence wins). -/
def gridQueryRefs (m : MapCore) (bmin bmax : Int × Int) : List GRef :=
  ((intRange (cellOf bmin.1) (cellOf bmax.1)).flatMap fun cx =>
    (intRange (cellOf bmin.2) (cellOf bmax.2)).map fun cy => (cx, cy)).foldl
    (fun acc c => (gridCellRefs m.grid c.1 c.2).foldl (fun acc e => if e ∈ acc then acc else acc ++ [e]) acc)
    []

/-- Modelled from the spec: `Geometry.isInside` is not part of src/ (only
its call sites are); per the spec the bounded query filters each visited
entity by its own bounds being contained in the query rectangle. -/
def isInside (m : MapCore) (e : GRef) (bmin bmax : Int × Int) : Bool :=
  let b := grefBounds m e
  bmin.1 ≤ b.minX && bmin.2 ≤ b.minY && b.maxX ≤ bmax.1 && b.maxY ≤ bmax.2

/-- Modelled from the spec: the bounded `iterate_lines` query yields only
lines (the per-kind yield contract of the spec iteration API; the
type dispatch is not visible in src/). -/
def iterLinesBounded (m : MapCore) (bmin bmax : Int × Int) : List Nat :=
  (gridQueryRefs m bmin bmax).filterMap fun e =>
    match e with
    | .l lid => if isInside m e bmin bmax then some lid else none
    | _ => none

/-- Modelled from the spec: the bounded `iterate_sectors` query. -/
def iterSectorsBounded (m : MapCore) (bmin bmax : Int × Int) : List Nat :=
  (gridQueryRefs m bmin bmax).filterMap fun e =>
    match e with
    | .s sid => if isInside m e bmin bmax then some sid else none
    | _ => none

/-! ## Sector (src Sector class) -/

/-- A line descriptor handed to the Sector constructor:
endpoint coordinates plus which side faces the sector. -/
structure LineDesc where
  dv0 : Int × Int
  dv1 : Int × Int
  front : Bool
deriving DecidableEq, Repr

/-- Bounds of a descriptor list (the constructor folds min/max over all
endpoints; descriptor lists are nonempty in every reachable call). -/
def descBounds (descs : List LineDesc) : BoundsR :=
  match descs with
  | [] => { minX := 0, minY := 0, maxX := 0, maxY := 0 }
  | d :: rest =>
      rest.foldl
        (fun b d =>
          { minX := min b.minX (min d.dv0.1 d.dv1.1), minY := min b.minY (min d.dv0.2 d.dv1.2),
            maxX := max b.maxX (max d.dv0.1 d.dv1.1), maxY := max b.maxY (max d.dv0.2 d.dv1.2) })
        { minX := min d.dv0.1 d.dv1.1, minY := min d.dv0.2 d.dv1.2,
          maxX := max d.dv0.1 d.dv1.1, maxY := max d.dv0.2 d.dv1.2 }

/-- Sector constructor: resolve each descriptor through the line map,
claim the matching side (throwing when it is already claimed), and build
the boundary list and flat polygon; the new sector starts with default
properties, outside any map. -/
def ctorStep (sid : Nat) (st : MapCore × List Nat × List Int) (id : Nat × LineDesc) :
    Except String (MapCore × List Nat × List Int) := do
  let (m, lineIds, flatXY) := st
  let (i, d) := id
  let key := createLineKey d.dv0.1 d.dv0.2 d.dv1.1 d.dv1.2
  let some lid := lmapGet m.lineMap key | Except.error ("Sector reference to missing line")
  let some l := alistLookup m.lheap lid | Except.error ("Sector reference to missing line")
  let lineIds := lineIds ++ [lid]
  if d.front then do
    if l.front.sector ≠ none then
      Except.error ("Line already assigned to a front sector")
    let m := { m with lheap := alistUpdate m.lheap lid (fun l => { l with front := { l.front with sector := some sid } }) }
    let p0 := vcoord m l.v0
    let p1 := vcoord m l.v1
    let flatXY := (if i = 0 then flatXY ++ [p0.1, p0.2] else flatXY) ++ [p1.1, p1.2]
    pure (m, lineIds, flatXY)
  else do
    if l.back.sector ≠ none then
      Except.error ("Line already assigned to a back sector")
    let m := { m with lheap := alistUpdate m.lheap lid (fun l => { l with back := { l.back with sector := some sid } }) }
    let p0 := vcoord m l.v0
    let p1 := vcoord m l.v1
    let flatXY := (if i = 0 then flatXY ++ [p1.1, p1.2] else flatXY) ++ [p0.1, p0.2]
    pure (m, lineIds, flatXY)

/-- Sector constructor continued: fold the descriptor steps and build the
sector record. -/
def sectorCtor (m : MapCore) (descs : List LineDesc) : Except String (MapCore × Nat) := do
  let sid := m.nextId
  let m := { m with nextId := sid + 1 }
  let (m, lineIds, flatXY) ← descs.enum.foldlM (ctorStep sid) (m, [], [])
  let so : SectorObj :=
    { lineIds := lineIds, flatXY := flatXY, parent := none, children := [],
      props := SectorProps.init, inMap := false, bnds := descBounds descs }
  pure ({ m with sheap := m.sheap ++ [(sid, so)] }, sid)

/-- Sector field accessors through the heap (total with defaults). -/
def sectorObj (m : MapCore) (sid : Nat) : SectorObj :=
  (alistLookup m.sheap sid).getD
    { lineIds := [], flatXY := [], parent := none, children := [],
      props := SectorProps.init, inMap := false,
      bnds := { minX := 0, minY := 0, maxX := 0, maxY := 0 } }

/-- Sector.childOf: walk the parent chain (fuel bounded by the heap size,
which bounds every acyclic chain; the source recursion is unbounded). -/
def childOf (m : MapCore) (sid ancestor : Nat) : Bool :=
  let rec go (fuel : Nat) (cur : Option Nat) : Bool :=
    match fuel, cur with
    | 0, _ => false
    | _, none => false
    | fuel + 1, some p => if p = ancestor then true else go fuel (sectorObj m p).parent
  go (m.sheap.length + 1) (sectorObj m sid).parent

/-- Parent search step of Sector.addToMap: adopt the candidate as parent
when it fully contains this sector and is more nested than the current
candidate. -/
def parentStep (sid : Nat) (b1 : BoundsR) (m : MapCore) (other : Nat) : MapCore :=
  if other = sid then m
  else
    let b2 := (sectorObj m other).bnds
    let inside :=
      b1.minX ≥ b2.minX && b1.minY ≥ b2.minY && b1.maxX ≤ b2.maxX && b1.maxY ≤ b2.maxY &&
      polygonContainsAllVertices (sectorObj m sid).flatXY (sectorObj m other).flatXY
    let cur := (sectorObj m sid).parent
    if inside && (cur.isNone || (match cur with | some c => childOf m other c | none => false)) then
      { m with sheap := alistUpdate m.sheap sid (fun s => { s with parent := some other }) }
    else m

/-- Adoption step of Sector.addToMap: reparent a sibling fully contained
in this sector (the JS splice on a missing index drops the LAST child). -/
def adoptStep (sid : Nat) (b1 : BoundsR) (m : MapCore) (other : Nat) : MapCore :=
  if other = sid || (sectorObj m other).parent ≠ (sectorObj m sid).parent then m
  else
    let b2 := (sectorObj m other).bnds
    let contains :=
      b2.minX ≥ b1.minX && b2.minY ≥ b1.minY && b2.maxX ≤ b1.maxX && b2.maxY ≤ b1.maxY &&
      polygonContainsAllVertices (sectorObj m other).flatXY (sectorObj m sid).flatXY
    if contains then
      let m :=
        match (sectorObj m other).parent with
        | some op =>
            { m with sheap := alistUpdate m.sheap op (fun s =>
                { s with children :=
                    match s.children.indexOf? other with
                    | some i => s.children.eraseIdx i
                    | none => s.children.eraseIdx (s.children.length - 1) }) }
        | none => m
      let m := { m with sheap := alistUpdate m.sheap sid (fun s => { s with children := s.children ++ [other] }) }
      { m with sheap := alistUpdate m.sheap other (fun s => { s with parent := some sid }) }
    else m

/-- Open-side patching step of Sector.addToMap: a side opposite this
sector that is still null points at the parent afterwards. -/
def patchStep (sid : Nat) (par : Option Nat) (m : MapCore) (lid : Nat) : MapCore :=
  match alistLookup m.lheap lid with
  | some l =>
      if l.front.sector = some sid && l.back.sector = none then
        { m with lheap := alistUpdate m.lheap lid (fun l => { l with back := { l.back with sector := par } }) }
      else if l.back.sector = some sid && l.front.sector = none then
        { m with lheap := alistUpdate m.lheap lid (fun l => { l with front := { l.front with sector := par } }) }
      else m
  | none => m

/-- Sector.addToMap: find the most nested containing sector as parent,
register as its child, adopt contained siblings, and point open sides of
the boundary at the parent. -/
def addToMap (m : MapCore) (sid : Nat) : Except String MapCore := do
  if (sectorObj m sid).inMap then
    Except.error ("Sector has already been added to a map")
  let m := { m with sheap := alistUpdate m.sheap sid (fun s => { s with inMap := true }) }
  let b1 := (sectorObj m sid).bnds
  let m := (iterSectorsBounded m (b1.minX, b1.minY) (b1.maxX, b1.maxY)).foldl (parentStep sid b1) m
  let m :=
    match (sectorObj m sid).parent with
    | some p => { m with sheap := alistUpdate m.sheap p (fun s => { s with children := s.children ++ [sid] }) }
    | none => m
  let m := (iterSectorsBounded m (b1.minX, b1.minY) (b1.maxX, b1.maxY)).foldl (adoptStep sid b1) m
  let par := (sectorObj m sid).parent
  let m := (sectorObj m sid).lineIds.foldl (patchStep sid par) m
  pure m

/-- Sector.removeFromMap: restore boundary sides to the parent, reparent
children, and unregister from the parent child list. -/
def removeFromMap (m : MapCore) (sid : Nat) : Except String MapCore := do
  if !(sectorObj m sid).inMap then
    Except.error ("Sector has not been added to a map")
  let par := (sectorObj m sid).parent
  let m :=
    (sectorObj m sid).lineIds.foldl
      (fun m lid =>
        match alistLookup m.lheap lid with
        | some l =>
            if l.front.sector = some sid then
              { m with lheap := alistUpdate m.lheap lid (fun l => { l with front := { l.front with sector := par } }) }
            else if l.back.sector = some sid then
              { m with lheap := alistUpdate m.lheap lid (fun l => { l with back := { l.back with sector := par } }) }
            else m
        | none => m)
      m
  let m :=
    (sectorObj m sid).children.foldl
      (fun m child =>
        let m := { m with sheap := alistUpdate m.sheap child (fun s => { s with parent := par }) }
        match par with
        | some p => { m with sheap := alistUpdate m.sheap p (fun s => { s with children := s.children ++ [child] }) }
        | none => m)
      m
  let m := { m with sheap := alistUpdate m.sheap sid (fun s => { s with children := [] }) }
  match par with
  | some p =>
      let some i := (sectorObj m p).children.indexOf? sid | Except.error ("Missing child in sector")
      let m := { m with sheap := alistUpdate m.sheap p (fun s => { s with children := s.children.eraseIdx i }) }
      let m := { m with sheap := alistUpdate m.sheap sid (fun s => { s with parent := none }) }
      pure { m with sheap := alistUpdate m.sheap sid (fun s => { s with inMap := false }) }
  | none =>
      pure { m with sheap := alistUpdate m.sheap sid (fun s => { s with inMap := false }) }

/-- Sector.clearLines: guarded by the `#map` back-reference being null
(so it throws whenever the sector is still registered in a map). -/
def clearLinesS (m : MapCore) (sid : Nat) : Except String MapCore := do
  if (sectorObj m sid).inMap then
    Except.error ("Attempted to clear sector lines without calling removeFromMap first")
  let m ←
    (sectorObj m sid).lineIds.foldlM
      (fun m lid => do
        let some l := alistLookup m.lheap lid | Except.error ("Missing line object")
        if l.back.sector = some sid then
          pure { m with lheap := alistUpdate m.lheap lid (fun l => { l with back := { l.back with sector := none } }) }
        else if l.front.sector = some sid then
          pure { m with lheap := alistUpdate m.lheap lid (fun l => { l with front := { l.front with sector := none } }) }
        else
          Except.error ("Line not connected to this sector"))
      m
  pure { m with sheap := alistUpdate m.sheap sid (fun s => { s with lineIds := [] }) }

/-- DoomMap.#addSector. -/
def addSector (m : MapCore) (sid : Nat) : Except String MapCore := do
  let m ← addToMap m sid
  let m := { m with sectors := m.sectors ++ [sid] }
  pure { m with grid := gridAdd m.grid (.s sid) (sectorObj m sid).bnds }

/-- DoomMap.#removeSector: note the source calls clearLines BEFORE
removeFromMap, while the sector is still registered. -/
def removeSector (m : MapCore) (sid : Nat) : Except String MapCore := do
  let some i := m.sectors.indexOf? sid | Except.error ("Attempted to remove non-existent sector")
  let m ← clearLinesS m sid
  let m := { m with grid := gridRemove m.grid (.s sid) (sectorObj m sid).bnds }
  let m := { m with sectors := m.sectors.eraseIdx i }
  removeFromMap m sid

/-- Sector.clone: construct from the descriptors and copy the properties
of the template sector. -/
def cloneSector (m : MapCore) (tmpl : Nat) (descs : List LineDesc) : Except String (MapCore × Nat) := do
  let (m, sid) ← sectorCtor m descs
  let props := (sectorObj m tmpl).props
  pure ({ m with sheap := alistUpdate m.sheap sid (fun s => { s with props := props }) }, sid)

/-! ## Sector rebuild (DoomMap.rebuildSectors) -/

/-- A directed half-edge of the rebuild: origin and destination vertex
ids, the underlying line and its direction. -/
structure DEdge where
  src : Nat
  dst : Nat
  lineId : Nat
  forward : Bool
deriving DecidableEq, Repr

/-- Working set: the modified lines plus every line sharing a vertex with
one of them (first loop collects lines and vertices, second loop expands
through the vertex incidence lists), in JS Set insertion order. -/
def computeLocals (m : MapCore) : List Nat :=
  let step1 :=
    m.modifiedLines.foldl
      (fun (st : List Nat × List Nat) lid =>
        let (ll, lv) := st
        let ll := setAdd ll lid
        match alistLookup m.lheap lid with
        | some l => (ll, setAdd (setAdd lv l.v0) l.v1)
        | none => (ll, lv))
      ([], [])
  step1.2.foldl
    (fun ll vid =>
      match alistLookup m.vheap vid with
      | some v => v.lines.foldl setAdd ll
      | none => ll)
    step1.1

/-- One line of the invalidation loop: remember the sector on both sides
in `sectorOld` and collect the touched sectors. -/
def invStep (st : MapCore × List Nat) (lid : Nat) : MapCore × List Nat :=
  let (m, inv) := st
  match alistLookup m.lheap lid with
  | none => (m, inv)
  | some l =>
      let inv := match l.front.sector with
                 | some s => setAdd inv s
                 | none => inv
      let m := { m with lheap := alistUpdate m.lheap lid (fun l =>
                   { l with front := { l.front with sectorOld := l.front.sector } }) }
      let inv := match l.back.sector with
                 | some s => setAdd inv s
                 | none => inv
      let m := { m with lheap := alistUpdate m.lheap lid (fun l =>
                   { l with back := { l.back with sectorOld := l.back.sector } }) }
      (m, inv)

/-- Invalidation: remember each local line's sector on both sides in
`sectorOld` and collect the touched sectors. -/
def invalidatePhase (m : MapCore) (locals : List Nat) : MapCore × List Nat :=
  locals.foldl invStep (m, [])

/-- Stable insertion: place x before the first element strictly greater
than it. -/
def insertOrdered (lt : Nat → Nat → Bool) (x : Nat) : List Nat → List Nat
  | [] => [x]
  | y :: ys => if lt x y then x :: y :: ys else y :: insertOrdered lt x ys

/-- Stable insertion sort by a boolean strict order (the JS sort with the
numeric `angle a - angle b` comparator; all buckets of the runs below
have pairwise distinct angles, so any correct comparison sort agrees). -/
def sortedByB (lt : Nat → Nat → Bool) (l : List Nat) : List Nat :=
  l.foldl (fun acc x => insertOrdered lt x acc) []

/-- The fallback edge used for out-of-range list indexing (never reached
in an error free run). -/
def dummyEdge : DEdge := { src := 0, dst := 0, lineId := 0, forward := true }

/-- Build the directed edge list (forward then reverse per local line,
identified by list position) and the per-vertex outgoing buckets sorted
by polar angle of the edge target around the vertex. -/
def buildEdges (m : MapCore) (locals : List Nat) : List DEdge × List (Nat × List Nat) :=
  let st :=
    locals.foldl
      (fun (st : List DEdge × List (Nat × List Nat)) lid =>
        let (edges, outg) := st
        match alistLookup m.lheap lid with
        | none => st
        | some l =>
            let iF := edges.length
            let iR := iF + 1
            let ef : DEdge := { src := l.v0, dst := l.v1, lineId := lid, forward := true }
            let er : DEdge := { src := l.v1, dst := l.v0, lineId := lid, forward := false }
            let push := fun (outg : List (Nat × List Nat)) (vid : Nat) (idx : Nat) =>
              if (outg.find? (fun p => p.1 = vid)).isSome then
                outg.map fun p => if p.1 = vid then (p.1, p.2 ++ [idx]) else p
              else outg ++ [(vid, [idx])]
            (edges ++ [ef, er], push (push outg l.v0 iF) l.v1 iR))
      ([], [])
  let edges := st.1
  let sortBucket := fun (vid : Nat) (idxs : List Nat) =>
    let vpos := vcoord m vid
    let lt := fun (i j : Nat) =>
      let pa := vcoord m (edges.getD i dummyEdge).dst
      let pb := vcoord m (edges.getD j dummyEdge).dst
      angLtB (pa.1 - vpos.1) (pa.2 - vpos.2) (pb.1 - vpos.1) (pb.2 - vpos.2)
    sortedByB lt idxs
  (edges, st.2.map fun p => (p.1, sortBucket p.1 p.2))

/-- nextLeft: standing at the destination of the incoming edge, pick the
outgoing edge whose CCW turn from the reverse of the incoming direction
is the smallest strictly positive delta; if none is strictly positive,
fall back to the largest delta. -/
def nextLeft (m : MapCore) (edges : List DEdge) (outgoing : List (Nat × List Nat)) (eIdx : Nat) : Option Nat :=
  let e := edges.getD eIdx dummyEdge
  let pivot := e.dst
  let outs := match outgoing.find? (fun p => p.1 = pivot) with
              | some p => p.2
              | none => []
  if outs.isEmpty then none
  else
    let ppos := vcoord m pivot
    let spos := vcoord m e.src
    let bx := spos.1 - ppos.1
    let bY := spos.2 - ppos.2
    let cvec := fun (c : Nat) =>
      let t := vcoord m (edges.getD c dummyEdge).dst
      (t.1 - ppos.1, t.2 - ppos.2)
    let best :=
      outs.foldl
        (fun (best : Option Nat) c =>
          let v := cvec c
          if ccwClass bx bY v.1 v.2 ≠ 0 then
            match best with
            | none => some c
            | some b =>
                let w := cvec b
                if ccwDeltaLtB bx bY v.1 v.2 w.1 w.2 then some c else best
          else best)
        none
    let best :=
      match best with
      | some b => some b
      | none =>
          -- fallback: take the largest delta
          outs.foldl
            (fun (best : Option Nat) c =>
              match best with
              | none => some c
              | some b =>
                  let v := cvec c
                  let w := cvec b
                  if ccwDeltaLtB bx bY w.1 w.2 v.1 v.2 then some c else best)
            none
    match best with
    | some b => some b
    | none => some (outs.getD 0 0)

/-- One CCW loop walk from a start edge (the source `while` loop; the
explicit fuel bounds the recursion, one unit per edge appended to the
loop, and the 100000 step guard of the source is kept verbatim). -/
def traceLoopGo (m : MapCore) (edges : List DEdge) (outgoing : List (Nat × List Nat))
    (startIdx : Nat) : Nat → Nat → List Nat → List Int → Nat → List Nat × List Int × Bool
  | 0, _, loopEdges, xy, _ => (loopEdges, xy, false)
  | fuel + 1, e, loopEdges, xy, guard =>
      if e ∈ loopEdges then (loopEdges, xy, false)
      else
        let ed := edges.getD e dummyEdge
        let p := vcoord m ed.src
        let loopEdges := loopEdges ++ [e]
        let xy := xy ++ [p.1, p.2]
        match nextLeft m edges outgoing e with
        | none => (loopEdges, xy, false)
        | some e2 =>
            if guard + 1 > 100000 then (loopEdges, xy, false)
            else if e2 = startIdx then (loopEdges, xy, true)
            else traceLoopGo m edges outgoing startIdx fuel e2 loopEdges xy (guard + 1)

/-- Trace all CCW loops: walk from every not-yet-visited directed edge,
keep closed loops with at least 3 vertices and positive signed area, and
mark their edges visited. -/
def traceAll (m : MapCore) (edges : List DEdge) (outgoing : List (Nat × List Nat)) :
    List (List Nat × List Int) :=
  ((List.range edges.length).foldl
    (fun (st : List Nat × List (List Nat × List Int)) start =>
      let (visited, loops) := st
      if start ∈ visited then st
      else
        let r := traceLoopGo m edges outgoing start (edges.length + 2) start [] [] 0
        let (loopEdges, xy, closed) := r
        if !closed || xy.length < 6 then st
        else
          let xy := xy ++ [xy.getD 0 0, xy.getD 1 0]
          if signedArea2dTwice xy > 0 then
            (visited ++ loopEdges, loops ++ [(loopEdges, xy)])
          else st)
    ([], [])).2

/-- Sector assignment: for each kept loop build the line descriptors, pick
the template from the first non-null `sectorOverride` / `sectorOld` on the
left side of an edge, and construct (or clone) and register the sector. -/
def addSectorFromLoop (edges : List DEdge) (m : MapCore) (loop : List Nat × List Int) :
    Except String MapCore := do
      let descs := loop.1.map fun ei =>
        let ed := edges.getD ei dummyEdge
        let l := (alistLookup m.lheap ed.lineId).getD
          { v0 := 0, v1 := 0, front := SideObj.init, back := SideObj.init, flags := FlagsObj.init }
        { dv0 := vcoord m l.v0, dv1 := vcoord m l.v1, front := ed.forward : LineDesc }
      let tmpl := loop.1.findSome? fun ei =>
        let ed := edges.getD ei dummyEdge
        match alistLookup m.lheap ed.lineId with
        | none => none
        | some l =>
            if ed.forward then
              match l.front.sectorOverride with
              | some s => some s
              | none => l.front.sectorOld
            else
              match l.back.sectorOverride with
              | some s => some s
              | none => l.back.sectorOld
      let (m, sid) ←
        match tmpl with
        | some t => cloneSector m t descs
        | none => sectorCtor m descs
      addSector m sid

/-- Sector assignment phase: register one sector per kept loop. -/
def assignPhase (m : MapCore) (loops : List (List Nat × List Int)) (edges : List DEdge) :
    Except String MapCore :=
  loops.foldlM (addSectorFromLoop edges) m

/-- Clearing the override scratch reference of one line. -/
def clearOvStep (m : MapCore) (lid : Nat) : MapCore :=
  { m with lheap := alistUpdate m.lheap lid (fun l =>
      { l with front := { l.front with sectorOverride := none },
               back := { l.back with sectorOverride := none } }) }

/-- Clear the override scratch reference of every line in the map array
(note: the source clears ONLY `sectorOverride` here, not `sectorOld`). -/
def clearOverridesPhase (m : MapCore) : MapCore :=
  m.lines.foldl clearOvStep m

/-- DoomMap.rebuildSectors. -/
def rebuildSectors (m : MapCore) : Except String MapCore := do
  if m.modifiedLines.isEmpty then
    pure m
  else
    let locals := computeLocals m
    let (m, invalidated) := invalidatePhase m locals
    let m ← invalidated.foldlM removeSector m
    let (edges, outgoing) := buildEdges m locals
    let loops := traceAll m edges outgoing
    let m ← assignPhase m loops edges
    let m := clearOverridesPhase m
    pure { m with modifiedLines := [] }

/-! ## Math helpers and the public manipulation API -/

/-- Endpoint coordinates of a heap line. -/
def lineCoords (m : MapCore) (lid : Nat) : (Int × Int) × (Int × Int) :=
  match alistLookup m.lheap lid with
  | some l => (vcoord m l.v0, vcoord m l.v1)
  | none => ((0, 0), (0, 0))

/-- DoomMap.#wouldSegmentCrossAny: first line of the bounded query that is
not ignored, does not share an endpoint with the candidate segment, and
either properly intersects it or overlaps it collinearly beyond a point
(the callback stops the iteration at the first find). -/
def wouldSegmentCrossAny (m : MapCore) (x0 y0 x1 y1 : Int) (bmin bmax : Int × Int)
    (ignore : List Nat) : Option Nat :=
  (iterLinesBounded m bmin bmax).foldl
    (fun res lid =>
      match res with
      | some _ => res
      | none =>
          if lid ∈ ignore then none
          else
            let c := lineCoords m lid
            let x2 := c.1.1
            let y2 := c.1.2
            let x3 := c.2.1
            let y3 := c.2.2
            let sharesEndpoint :=
              (x0 = x2 && y0 = y2) || (x0 = x3 && y0 = y3) ||
              (x1 = x2 && y1 = y2) || (x1 = x3 && y1 = y3)
            if sharesEndpoint then none
            else if segmentsProperlyIntersect x0 y0 x1 y1 x2 y2 x3 y3 then some lid
            else if collinearOverlapMoreThanEndpoint x0 y0 x1 y1 x2 y2 x3 y3 then some lid
            else none)
    none

/-- DoomMap.addVertex (public): returns the existing vertex for an
occupied key, otherwise creates and registers the vertex and splits every
line whose segment passes through it; inputs are already on the integer
grid (`Math.round` of an integer is the identity). -/
def addVertex (st : MState) (x y : Int) (skipRebuild : Bool) : Except String (MState × Nat) := do
  let key : VKey := (x, y)
  match vmapGet st.core.vertexMap key with
  | some existing => pure (st, existing)
  | none => do
      let (c, vid) := mkVertex st.core x y
      let st ← regAddVertex { st with core := c } vid
      let linesToSplit :=
        st.core.lines.filter fun lid =>
          let cds := lineCoords st.core lid
          orientation cds.1.1 cds.1.2 cds.2.1 cds.2.2 x y = 0 &&
          onSegment cds.1.1 cds.1.2 x y cds.2.1 cds.2.2
      let st ←
        linesToSplit.foldlM
          (fun st lid => do
            let l := (alistLookup st.core.lheap lid).getD
              { v0 := 0, v1 := 0, front := SideObj.init, back := SideObj.init, flags := FlagsObj.init }
            let (c, lA) ← cloneLine st.core lid (some l.v0) (some vid)
            let (c, lB) ← cloneLine c lid (some vid) (some l.v1)
            let st ← regAddLine { st with core := c } lA
            let st ← regAddLine st lB
            regRemoveLine st lid)
          st
      let st ← if skipRebuild then pure st else do
        let c ← rebuildSectors st.core
        pure { st with core := c }
      pure (st, vid)

/-- DoomMap.removeLine (public). -/
def removeLine (st : MState) (x0 y0 x1 y1 : Int) (skipRebuild : Bool) :
    Except String (MState × Bool) := do
  let key := createLineKey x0 y0 x1 y1
  match lmapGet st.core.lineMap key with
  | none => pure (st, false)
  | some lid => do
      let st ← regRemoveLine st lid
      let st ← if skipRebuild then pure st else do
        let c ← rebuildSectors st.core
        pure { st with core := c }
      pure (st, true)

/-- The epsilon of addLine (1e-12), as an exact fraction. -/
def epsR : Frac := { num := 1, den := 10 ^ (12 : Nat) }

/-- The far endpoint of a line relative to one of its vertices
(`otherOf`). -/
def otherOf (m : MapCore) (lid vid : Nat) : Nat :=
  match alistLookup m.lheap lid with
  | some l => if l.v0 = vid then l.v1 else l.v0
  | none => 0

/-- addLine merge helper `tryMergeAtVertex`: scan the neighbors at the
shared vertex for a collinear candidate whose merged long segment crosses
nothing else; either drop both shorts for an existing long line or clone
the candidate onto the long span.  Returns the surviving line (the input
line when no merge applies). -/
def tryMergeAtVertex (st : MState) (lid sharedV : Nat) : Except String (MState × Nat) := do
  let cands := match alistLookup st.core.vheap sharedV with
               | some v => v.lines
               | none => []
  let rec go (st : MState) : List Nat → Except String (MState × Nat)
    | [] => pure (st, lid)
    | cand :: rest => do
        if cand = lid then go st rest
        else
          let a := otherOf st.core lid sharedV
          let b := sharedV
          let c := otherOf st.core cand sharedV
          let pa := vcoord st.core a
          let pb := vcoord st.core b
          let pc := vcoord st.core c
          if orientation pa.1 pa.2 pb.1 pb.2 pc.1 pc.2 ≠ 0 then go st rest
          else
            let ignore := [lid, cand]
            let localMin := (min pa.1 pc.1, min pa.2 pc.2)
            let localMax := (max pa.1 pc.1, max pa.2 pc.2)
            if (wouldSegmentCrossAny st.core pa.1 pa.2 pc.1 pc.2 localMin localMax ignore).isSome then
              go st rest
            else
              let mergedKey := createLineKey pa.1 pa.2 pc.1 pc.2
              match lmapGet st.core.lineMap mergedKey with
              | some existing => do
                  let st ← regRemoveLine st lid
                  let st ← regRemoveLine st cand
                  pure (st, existing)
              | none => do
                  let base := (alistLookup st.core.lheap cand).getD
                    { v0 := 0, v1 := 0, front := SideObj.init, back := SideObj.init, flags := FlagsObj.init }
                  let (cm, merged) ← cloneLine st.core cand
                    (if base.v0 = b then some a else none)
                    (if base.v1 = b then some c else none)
                  let st ← regAddLine { st with core := cm } merged
                  let st ← regRemoveLine st lid
                  let st ← regRemoveLine st cand
                  pure (st, merged)
  go st cands

/-- The `while (changed)` merge loop of addLine for one created line; the
fuel bounds the iterations (every successful merge lowers the number of
registered lines by one, so the initial line count plus two suffices). -/
def mergeLoop (st : MState) (lid : Nat) : Nat → Except String MState
  | 0 => pure st
  | fuel + 1 => do
      let vA := match alistLookup st.core.lheap lid with
                | some l => l.v0
                | none => 0
      let vB := match alistLookup st.core.lheap lid with
                | some l => l.v1
                | none => 0
      let (st, m1) ← tryMergeAtVertex st lid vA
      if m1 ≠ lid then mergeLoop st m1 fuel
      else do
        let (st, m2) ← tryMergeAtVertex st lid vB
        if m2 ≠ lid then mergeLoop st m2 fuel
        else pure st

/-- DoomMap.addLine: create the missing pieces of the segment between the
two (integer grid) endpoints, splitting crossed lines at proper
intersections, skipping collinear covered stretches, and merging new
pieces outward with collinear neighbors; returns the created lines, with
`none` embedding the JS return value `false` (nothing created). -/
def addLine (st : MState) (x0 y0 x1 y1 : Int) (skipRebuild : Bool) :
    Except String (MState × Option (List Nat)) := do
  if x0 = x1 && y0 = y1 then
    pure (st, none)
  else
    let bmin := (min x0 x1, min y0 y1)
    let bmax := (max x0 x1, max y0 y1)
    let (st, vStart) ← addVertex st x0 y0 true
    let (st, vEnd) ← addVertex st x1 y1 true
    let ps := vcoord st.core vStart
    let pe := vcoord st.core vEnd
    let lineKey := createLineKey ps.1 ps.2 pe.1 pe.2
    if (lmapGet st.core.lineMap lineKey).isSome then do
      let st ← if skipRebuild then pure st else do
        let c ← rebuildSectors st.core
        pure { st with core := c }
      pure (st, none)
    else do
      -- proper intersections with existing lines; the source pushes one
      -- REUSED mutable record into `hits`, so every entry aliases the
      -- final intersection computed: the embedding keeps the push count
      -- and the final record value
      let hitsState :=
        (iterLinesBounded st.core bmin bmax).foldl
          (fun (hs : Nat × Option (Int × Int)) lid =>
            let cds := lineCoords st.core lid
            let lx0 := cds.1.1
            let ly0 := cds.1.2
            let lx1 := cds.2.1
            let ly1 := cds.2.2
            let sharesEndpoint :=
              (x0 = lx0 && y0 = ly0) || (x0 = lx1 && y0 = ly1) ||
              (x1 = lx0 && y1 = ly0) || (x1 = lx1 && y1 = ly1)
            if sharesEndpoint then hs
            else if segmentsProperlyIntersect x0 y0 x1 y1 lx0 ly0 lx1 ly1 then
              let rpx := x1 - x0
              let rpy := y1 - y0
              let spx := lx1 - lx0
              let spy := ly1 - ly0
              let d := rpx * spy - rpy * spx
              let t := fracMk ((lx0 - x0) * spy - (ly0 - y0) * spx) d
              let ix := jround (fracAdd (fracOfInt x0) (fracMulInt t rpx))
              let iy := jround (fracAdd (fracOfInt y0) (fracMulInt t rpy))
              if fracLt (fracOfInt 0) t && fracLt t (fracOfInt 1) then
                (hs.1 + 1, some (ix, iy))
              else (hs.1, some (ix, iy))
            else hs)
          (0, none)
      let st ←
        (List.range hitsState.1).foldlM
          (fun st _ =>
            match hitsState.2 with
            | some p => do
                let (st, _) ← addVertex st p.1 p.2 true
                pure st
            | none => pure st)
          st
      -- collinear coverage intervals in the t parameter space
      let dx := pe.1 - ps.1
      let dy := pe.2 - ps.2
      let lengthSquared := dx * dx + dy * dy
      let projectT := fun (qx qy : Int) =>
        if lengthSquared = 0 then fracOfInt 0
        else
          let t := fracMk ((qx - ps.1) * dx + (qy - ps.2) * dy) lengthSquared
          fracMax (fracOfInt 0) (fracMin (fracOfInt 1) t)
      let intervals :=
        (iterLinesBounded st.core bmin bmax).foldl
          (fun (acc : List (Frac × Frac)) lid =>
            let cds := lineCoords st.core lid
            if orientation ps.1 ps.2 pe.1 pe.2 cds.1.1 cds.1.2 ≠ 0 then acc
            else if orientation ps.1 ps.2 pe.1 pe.2 cds.2.1 cds.2.2 ≠ 0 then acc
            else
              let ta := projectT cds.1.1 cds.1.2
              let tb := projectT cds.2.1 cds.2.2
              let s := fracMin ta tb
              let e := fracMax ta tb
              if fracLe (fracSub e s) epsR then acc
              else if fracLe e (fracOfInt 0) || fracLe (fracOfInt 1) s then acc
              else acc ++ [(fracMax (fracOfInt 0) s, fracMin (fracOfInt 1) e)])
          []
      let intervals :=
        intervals.foldl
          (fun (acc : List (Frac × Frac)) iv =>
            let rec ins (iv : Frac × Frac) : List (Frac × Frac) → List (Frac × Frac)
              | [] => [iv]
              | j :: js => if fracLt iv.1 j.1 then iv :: j :: js else j :: ins iv js
            ins iv acc)
          []
      let merged :=
        intervals.foldl
          (fun (acc : List (Frac × Frac)) iv =>
            match acc.getLast? with
            | none => [iv]
            | some last =>
                if fracLt (fracAdd last.2 epsR) iv.1 then acc ++ [iv]
                else acc.dropLast ++ [(last.1, fracMax last.2 iv.2)])
          []
      let gapsState :=
        merged.foldl
          (fun (gs : List (Frac × Frac) × Frac) iv =>
            let (gaps, cursor) := gs
            let gaps := if fracLt (fracAdd cursor epsR) iv.1 then gaps ++ [(cursor, iv.1)] else gaps
            (gaps, fracMax cursor iv.2))
          ([], fracOfInt 0)
      let gaps :=
        if fracLt gapsState.2 (fracSub (fracOfInt 1) epsR) then
          gapsState.1 ++ [(gapsState.2, fracOfInt 1)]
        else gapsState.1
      let pointAt := fun (t : Frac) =>
        (jround (fracAdd (fracOfInt ps.1) (fracMulInt t dx)),
         jround (fracAdd (fracOfInt ps.2) (fracMulInt t dy)))
      -- create a fresh default line for every uncovered gap
      let r ←
        gaps.foldlM
          (fun (sc : MState × List Nat) g => do
            let (st, created) := sc
            if fracLe (fracSub g.2 g.1) epsR then pure (st, created)
            else do
              let pA := pointAt g.1
              let pB := pointAt g.2
              let (st, vA) ← addVertex st pA.1 pA.2 true
              let (st, vB) ← addVertex st pB.1 pB.2 true
              let ca := vcoord st.core vA
              let cb := vcoord st.core vB
              if ca = cb then pure (st, created)
              else
                let k := createLineKey ca.1 ca.2 cb.1 cb.2
                if (lmapGet st.core.lineMap k).isSome then pure (st, created)
                else do
                  let (c, lid) := mkLine st.core vA vB SideObj.init SideObj.init FlagsObj.init
                  let st ← regAddLine { st with core := c } lid
                  pure (st, created ++ [lid]))
          (st, [])
      let (st, created) := r
      -- outward collinear merges for each created line
      let st ←
        created.foldlM
          (fun st lid =>
            if lid ∉ st.core.lines then pure st
            else mergeLoop st lid (st.core.lines.length + 2))
          st
      let st ← if skipRebuild then pure st else do
        let c ← rebuildSectors st.core
        pure { st with core := c }
      pure (st, if created.length > 0 then some created else none)

/-! ## Serialization (DoomMap.serialize / deserialize) -/

/-- Serialized side record (textures and offsets only). -/
structure SSide where
  textureUpper : String
  textureMiddle : String
  textureLower : String
  xOffset : Int
  yOffset : Int
deriving DecidableEq, Repr

/-- Serialized line record. -/
structure SLine where
  sv0 : Int × Int
  sv1 : Int × Int
  front : SSide
  back : SSide
  flags : FlagsObj
deriving DecidableEq, Repr

/-- Serialized sector record: properties plus ordered line descriptors. -/
structure SSector where
  props : SectorProps
  lines : List LineDesc
deriving DecidableEq, Repr

/-- Serialized thing record. -/
structure SThing where
  x : Int
  y : Int
  z : Int
  typeId : Int
  angle : Int
deriving DecidableEq, Repr

/-- Serialized map. -/
structure SMap where
  vertices : List (Int × Int)
  lines : List SLine
  sectors : List SSector
  things : List SThing
  metadata : Metadata
deriving DecidableEq, Repr

/-- Side.serialize. -/
def serializeSide (s : SideObj) : SSide :=
  { textureUpper := s.textureUpper, textureMiddle := s.textureMiddle,
    textureLower := s.textureLower, xOffset := s.xOffset, yOffset := s.yOffset }

/-- Side.deserialize onto a fresh side. -/
def deserializeSide (d : SSide) : SideObj :=
  { SideObj.init with
    textureUpper := d.textureUpper
    textureMiddle := d.textureMiddle
    textureLower := d.textureLower
    xOffset := d.xOffset
    yOffset := d.yOffset }

/-- DoomMap.serialize. -/
def serialize (m : MapCore) : SMap :=
  { vertices := m.vertices.map (vcoord m)
    lines := m.lines.map fun lid =>
      match alistLookup m.lheap lid with
      | some l =>
          { sv0 := vcoord m l.v0, sv1 := vcoord m l.v1,
            front := serializeSide l.front, back := serializeSide l.back, flags := l.flags }
      | none =>
          { sv0 := (0, 0), sv1 := (0, 0), front := serializeSide SideObj.init,
            back := serializeSide SideObj.init, flags := FlagsObj.init }
    sectors := m.sectors.map fun sid =>
      let s := sectorObj m sid
      { props := s.props
        lines := s.lineIds.map fun lid =>
          let c := lineCoords m lid
          { dv0 := c.1, dv1 := c.2,
            front := (match alistLookup m.lheap lid with
                      | some l => l.front.sector = some sid
                      | none => false) } }
    things := m.things.map fun tid =>
      match alistLookup m.theap tid with
      | some t => { x := t.x, y := t.y, z := t.z, typeId := t.typeId, angle := t.angle }
      | none => { x := 0, y := 0, z := 0, typeId := 0, angle := 0 }
    metadata := m.metadata }

/-- DoomMap.deserialize: clear the registries (NOT the modified line set,
the selection or the history), then register vertices, lines, sectors and
things from the records and run a full rebuild. -/
def deserialize (st : MState) (data : SMap) : Except String MState := do
  let c := { st.core with
             vertices := [], vertexMap := [], lines := [], lineMap := [],
             sectors := [], things := [], grid := [], metadata := data.metadata }
  let st : MState := { st with core := c }
  let st ←
    data.vertices.foldlM
      (fun st p => do
        let (c, vid) := mkVertex st.core p.1 p.2
        regAddVertex { st with core := c } vid)
      st
  let st ←
    data.lines.foldlM
      (fun st ld => do
        let some v0 := vmapGet st.core.vertexMap ld.sv0 | Except.error ("Missing vertex")
        let some v1 := vmapGet st.core.vertexMap ld.sv1 | Except.error ("Missing vertex")
        let (c, lid) := mkLine st.core v0 v1 (deserializeSide ld.front) (deserializeSide ld.back) ld.flags
        regAddLine { st with core := c } lid)
      st
  let st ←
    data.sectors.foldlM
      (fun st sd => do
        let (c, sid) ← sectorCtor st.core sd.lines
        let c := { c with sheap := alistUpdate c.sheap sid (fun s => { s with props := sd.props }) }
        let c ← addSector c sid
        pure { st with core := c })
      st
  let st ←
    data.things.foldlM
      (fun st td => do
        let (c, tid) := mkThing st.core td.x td.y td.z td.typeId td.angle
        regAddThing { st with core := c } tid)
      st
  let c ← rebuildSectors st.core
  pure { st with core := c }

/-! ## Concrete runs used by the claims -/

/-- Scenario S1: the four box edges added through the public API (each
call rebuilds, as the default `skip_rebuild = false` does). -/
def boxRun : Except String MState := do
  let (st, _) ← addLine MState.empty 0 0 100 0 false
  let (st, _) ← addLine st 100 0 100 100 false
  let (st, _) ← addLine st 100 100 0 100 false
  let (st, _) ← addLine st 0 100 0 0 false
  pure st

/-- The round trip of the box map: serialize, then deserialize into the
same map. -/
def boxRoundTrip : Except String MState :=
  boxRun >>= fun st => deserialize st (serialize st.core)

/-- Two things added in direct succession on the empty map. -/
def addThingTwice : Except String MState := do
  let (st, _) ← addThing MState.empty 0 0 0 1
  let (st, _) ← addThing st 1 1 0 1
  pure st

/-- A map holding one registered sector with default properties (as the
rebuild of any closed triangle produces, after `history.clear()`); only
the sector registry matters to the property setter. -/
def sectorOnlyCore : MapCore :=
  { MapCore.empty with
    nextId := 1
    sheap := [(0, { lineIds := [], flatXY := [], parent := none, children := [],
                    props := SectorProps.init, inMap := true,
                    bnds := { minX := 0, minY := 0, maxX := 0, maxY := 0 } })]
    sectors := [0] }

/-- Scenario S6: three successive lightLevel sets on a map whose history
is empty. -/
def setLightThrice : Except String MState := do
  let st : MState := { core := sectorOnlyCore, hist := { stack := [], redoStack := [] } }
  let st ← setSectorProperty st 0 SProp.lightLevel (PVal.num 160)
  let st ← setSectorProperty st 0 SProp.lightLevel (PVal.num 164)
  setSectorProperty st 0 SProp.lightLevel (PVal.num 168)

/-- One short line (0,0)-(50,0), the existing geometry of the
`would_segment_cross_any` counterexample. -/
def shortLineMap : Except String MState :=
  (addLine MState.empty 0 0 50 0 false).map fun p => p.1

/-- The double `addLine` call of the idempotence claim. -/
def doubleAddLine : Except String (MState × Option (List Nat) × Option (List Nat)) := do
  let (st1, r1) ← addLine MState.empty 0 0 100 0 false
  let (st2, r2) ← addLine st1 0 0 100 0 false
  pure (st2, r1, r2)

/-- Claim C1: calling undo once per recorded operation does NOT return
the map to its pre-state.  Two `addThing` calls coalesce into a single
undo entry (their actions both carry null target, null parameter and the
default coalescing flag), so after them the undo stack holds one entry;
undoing it (and even calling undo again on the then-empty stack) leaves
the first thing in the map, while the pre-state had no things. -/
theorem claim1_undo_does_not_restore_prestate :
    (addThingTwice.map fun st => undoCount st) = .ok 1 ∧
    (addThingTwice.map fun st => st.core.things.length) = .ok 2 ∧
    ((addThingTwice >>= histUndo).map fun st => st.core.things.length) = .ok 1 ∧
    ((addThingTwice >>= histUndo >>= histUndo).map fun st => st.core.things.length) = .ok 1 ∧
    MState.empty.core.things.length = 0 := by
  exact ⟨rfl, rfl, rfl, rfl, rfl⟩

/-- Claim C3: the S1 box sequence ends with 4 vertices and 4 lines but
ZERO sectors: the rebuild after the fourth call only works on the local
set (the new line plus the lines sharing its endpoints), which misses the
second box edge, so the closed CCW loop is never traced. -/
theorem claim3_box_produces_no_sector :
    (boxRun.map fun st =>
      (st.core.vertices.map (vcoord st.core), st.core.lines.length, st.core.sectors)) =
      .ok ([(0, 0), (100, 0), (100, 100), (0, 100)], 4, []) := by
  exact rfl

/-- Claim C4: the three coalesced lightLevel sets leave exactly one undo
entry, but undoing it restores 164 (the value before the LAST call), not
160 (the value before the first call): the coalescing replacement in
History.do discards the earlier undo thunk. -/
theorem claim4_coalesced_undo_restores_wrong_value :
    (setLightThrice.map fun st => (undoCount st, (sectorObj st.core 0).props.lightLevel)) =
      .ok (1, 168) ∧
    ((setLightThrice >>= histUndo).map fun st => (sectorObj st.core 0).props.lightLevel) =
      .ok 164 ∧
    (sectorObj sectorOnlyCore 0).props.lightLevel = 160 ∧ (164 : Int) ≠ 160 := by
  exact ⟨rfl, rfl, rfl, by decide⟩

/-- Claim C6 counterexample: the second identical `addLine` call returns
the JS value `false` (embedded as `none`), not an empty list, although it
indeed creates nothing (the line count stays 1 and the line map keeps the
single key). -/
theorem claim6_second_addline_returns_false :
    (doubleAddLine.map fun r => r.2) = .ok (some [2], none) ∧
    (doubleAddLine.map fun r => (r.1.core.lines, r.1.core.lineMap.map (fun p => p.1))) =
      .ok ([2], [((0, 0), (100, 0))]) ∧
    (Option.none (α := List Nat)) ≠ some [] := by
  exact ⟨rfl, rfl, by decide⟩

/-- Claim C7: the round trip is NOT the identity on the box map: the
original (because of the local working set defect of claim C3) has no
sector, while `deserialize` re-adds every line to the modified set and
its final rebuild traces the full box loop, producing one sector. -/
theorem claim7_roundtrip_not_identity :
    (boxRun.map fun st => st.core.sectors.length) = .ok 0 ∧
    (boxRoundTrip.map fun st => st.core.sectors.length) = .ok 1 ∧
    (boxRoundTrip.map fun st => st.core.vertices.map (vcoord st.core)) =
      .ok [(0, 0), (100, 0), (100, 100), (0, 100)] := by
  exact ⟨rfl, rfl, rfl⟩

/-- Claim C5: History.do semantics.  When the top of the undo stack is
coalescing with the same (target, parameter) the new action replaces it
in place and the redo stack is untouched; otherwise the action is pushed
and the redo stack is cleared; in both cases the do thunk of the new
action is then executed exactly once (the resulting core is one `runDo`
application). -/
theorem claim5_history_do (st : MState) (a : ActionRec) :
    histDo st a =
      (runDo a.act st.core).map fun c =>
        { core := c
          hist :=
            match st.hist.stack with
            | last :: rest =>
                if last.coalescing = true ∧ last.target = a.target ∧ last.param = a.param then
                  { stack := a :: rest, redoStack := st.hist.redoStack }
                else
                  { stack := a :: last :: rest, redoStack := [] }
            | [] => { stack := [a], redoStack := [] } } := by
  unfold histDo
  cases h : st.hist.stack with
  | nil => simp [h]
  | cons last rest =>
    by_cases hc : last.coalescing = true ∧ last.target = a.target ∧ last.param = a.param
    · simp [h, hc, hc.1, hc.2.1, hc.2.2]
    · simp only [h]
      have : (last.coalescing && last.target == a.target && last.param == a.param) = false := by
        by_cases h1 : last.coalescing = true
        · by_cases h2 : last.target = a.target
          · by_cases h3 : last.param = a.param
            · exact absurd ⟨h1, h2, h3⟩ hc
            · simp [h1, h2, h3]
          · simp [h1, h2]
        · simp [h1]
      simp [this, hc]

/-- The state before the first of the two addThing calls has no
null-target coalescing action on top of the undo stack (i.e. the previous
history-recorded mutation, if any, was not itself a null-keyed action). -/
def topNotNullCoalescing (st : MState) : Prop :=
  match st.hist.stack with
  | [] => True
  | a :: _ => ¬(a.coalescing = true ∧ a.target = none ∧ a.param = none)

/-- Thing ids of the map are below the allocation counter (true of every
state produced by the embedding, which mints fresh ids from `nextId`). -/
def thingIdsFresh (st : MState) : Prop :=
  ∀ tid ∈ st.core.things, tid < st.core.nextId

/-- Unfolding helpers for the Except monad used by the run proofs. -/
theorem epure {α : Type} (x : α) : (pure x : Except String α) = Except.ok x := rfl

/-- Bind on a success value. -/
theorem ebind_ok {α β : Type} (a : α) (f : α → Except String β) :
    (Except.ok a >>= f) = f a := rfl

/-- Map on a success value. -/
theorem emap_ok {α β : Type} (f : α → β) (a : α) :
    Except.map f (Except.ok (ε := String) a) = Except.ok (f a) := rfl

/-- Bind on an error value. -/
theorem ebind_err {α β : Type} (e : String) (f : α → Except String β) :
    (Except.error e >>= f) = Except.error (ε := String) (α := β) e := rfl

/-- Two directly successive addThing calls from an arbitrary state. -/
def addThingTwiceFrom (st : MState) (x1 y1 z1 t1 x2 y2 z2 t2 : Int) : Except String MState := do
  let (st, _) ← addThing st x1 y1 z1 t1
  let (st, _) ← addThing st x2 y2 z2 t2
  pure st

/-- Claim C10: two directly successive addThing calls coalesce.  Both
recorded actions carry null target, null parameter and the default
coalescing flag, so the second replaces the first on the undo stack: the
undo count grows by exactly one over the two calls (the first and second
things allocated are the ids nextId and nextId + 1), and a single undo
removes only the second thing, leaving the first registered with the
undo stack back to its initial state (no entry for the first remains). -/
theorem claim10_addthing_coalesces (st : MState) (x1 y1 z1 t1 x2 y2 z2 t2 : Int)
    (hW : thingIdsFresh st) (hTop : topNotNullCoalescing st) :
    ((addThingTwiceFrom st x1 y1 z1 t1 x2 y2 z2 t2).map fun s => s.core.things) =
      .ok (st.core.things ++ [st.core.nextId, st.core.nextId + 1]) ∧
    ((addThingTwiceFrom st x1 y1 z1 t1 x2 y2 z2 t2).map undoCount) = .ok (undoCount st + 1) ∧
    ((addThingTwiceFrom st x1 y1 z1 t1 x2 y2 z2 t2).map fun s =>
       s.hist.stack.head?.map fun a => (a.target, a.param, a.coalescing)) =
      .ok (some (none, none, true)) ∧
    ((addThingTwiceFrom st x1 y1 z1 t1 x2 y2 z2 t2 >>= histUndo).map fun s => s.core.things) =
      .ok (st.core.things ++ [st.core.nextId]) ∧
    ((addThingTwiceFrom st x1 y1 z1 t1 x2 y2 z2 t2 >>= histUndo).map fun s => s.hist.stack) =
      .ok st.hist.stack := by
  have hne1 : st.core.nextId ∉ st.core.things := fun h => lt_irrefl _ (hW _ h)
  have hne2 : st.core.nextId + 1 ∉ st.core.things := fun h => absurd (hW _ h) (by omega)
  have hne12 : st.core.nextId + 1 ≠ st.core.nextId := by omega
  have hrep1 :
      (match st.hist.stack with
       | last :: _ => last.coalescing && last.target == (none : Option Target) &&
           last.param == (none : Option String)
       | [] => false) = false := by
    unfold topNotNullCoalescing at hTop
    cases hs : st.hist.stack with
    | nil => rfl
    | cons a rest =>
        rw [hs] at hTop
        by_cases h1 : a.coalescing = true
        · by_cases h2 : a.target = none
          · by_cases h3 : a.param = none
            · exact absurd ⟨h1, h2, h3⟩ hTop
            · simp [h1, h2, h3]
          · simp [h1, h2]
        · simp [h1]
  refine ⟨?_, ?_, ?_, ?_, ?_⟩ <;>
    · simp only [addThingTwiceFrom, addThing, mkThing, regAddThing, histDo, runDo, histUndo,
        undoCount, epure, ebind_ok, emap_ok]
      rw [hrep1]
      simp [histUndo, runUndo, undoCount, epure, ebind_ok, emap_ok, hne1, hne2, hne12,
        List.erase_append_right, List.erase_cons_tail, List.erase_cons_head]

/-- Witness for claim C10 on the empty map: both hypotheses hold and the
two things land as ids 0 and 1 with one undo entry. -/
theorem claim10_witness :
    thingIdsFresh MState.empty ∧ topNotNullCoalescing MState.empty ∧
    ((addThingTwiceFrom MState.empty 0 0 0 1 1 1 0 1).map fun s => s.core.things) =
      .ok (MState.empty.core.things ++ [MState.empty.core.nextId, MState.empty.core.nextId + 1]) := by
  have h1 : thingIdsFresh MState.empty := by
    intro t ht
    simp [MState.empty, MapCore.empty] at ht
  have h2 : topNotNullCoalescing MState.empty := by
    simp [topNotNullCoalescing, MState.empty]
  exact ⟨h1, h2, (claim10_addthing_coalesces MState.empty 0 0 0 1 1 1 0 1 h1 h2).1⟩

/-- Claim C6 amended: when the exact requested line already exists, both
endpoint keys resolve to vertices carrying those coordinates and no
rebuild is pending, `addLine` changes nothing and returns `false`
(embedded `none`), not an empty list. -/
theorem claim6_amended_existing_line_early_exit (st : MState) (x0 y0 x1 y1 : Int)
    (hv0 : ∃ v, vmapGet st.core.vertexMap (x0, y0) = some v ∧ vcoord st.core v = (x0, y0))
    (hv1 : ∃ v, vmapGet st.core.vertexMap (x1, y1) = some v ∧ vcoord st.core v = (x1, y1))
    (hl : (lmapGet st.core.lineMap (createLineKey x0 y0 x1 y1)).isSome)
    (hm : st.core.modifiedLines = []) :
    addLine st x0 y0 x1 y1 false = .ok (st, none) := by
  obtain ⟨v0, hv0g, hv0c⟩ := hv0
  obtain ⟨v1, hv1g, hv1c⟩ := hv1
  by_cases hd : x0 = x1 ∧ y0 = y1
  · simp [addLine, hd.1, hd.2, epure]
  · have hd' : (x0 = x1 && y0 = y1) = false := by
      by_cases h1 : x0 = x1
      · by_cases h2 : y0 = y1
        · exact absurd ⟨h1, h2⟩ hd
        · simp [h1, h2]
      · simp [h1]
    simp only [addLine, addVertex, hv0g, hv1g, hv0c, hv1c, epure, ebind_ok, emap_ok, hd']
    simp [hl, rebuildSectors, hm, epure, ebind_ok, emap_ok]

/-- The map state after one successful addLine((0,0),(100,0)) call. -/
def boxFirstLine : MState :=
  match addLine MState.empty 0 0 100 0 false with
  | .ok (st, _) => st
  | .error _ => MState.empty

/-- Witness for the amended claim C6 on the concrete one-line map. -/
theorem claim6_amended_witness :
    (∃ v, vmapGet boxFirstLine.core.vertexMap (0, 0) = some v ∧
      vcoord boxFirstLine.core v = (0, 0)) ∧
    (∃ v, vmapGet boxFirstLine.core.vertexMap (100, 0) = some v ∧
      vcoord boxFirstLine.core v = (100, 0)) ∧
    (lmapGet boxFirstLine.core.lineMap (createLineKey 0 0 100 0)).isSome = true ∧
    boxFirstLine.core.modifiedLines = [] ∧
    addLine boxFirstLine 0 0 100 0 false = .ok (boxFirstLine, none) := by
  refine ⟨⟨0, rfl, rfl⟩, ⟨1, rfl, rfl⟩, rfl, rfl, ?_⟩
  exact claim6_amended_existing_line_early_exit boxFirstLine 0 0 100 0
    ⟨0, rfl, rfl⟩ ⟨1, rfl, rfl⟩ (by rfl) rfl

/-! ## Claim C8: would_segment_cross_any -/

/-- Modelled from the spec: the claim predicate of
`would_segment_cross_any` as the spec words it — the first existing line,
not in the ignore set, that either properly intersects the candidate or
overlaps it collinearly beyond a single shared endpoint (no exclusion of
endpoint-sharing lines). -/
def wouldSegmentCrossAnySpec (m : MapCore) (x0 y0 x1 y1 : Int) (bmin bmax : Int × Int)
    (ignore : List Nat) : Option Nat :=
  (iterLinesBounded m bmin bmax).find? fun lid =>
    let c := lineCoords m lid
    !(decide (lid ∈ ignore)) &&
    (segmentsProperlyIntersect x0 y0 x1 y1 c.1.1 c.1.2 c.2.1 c.2.2 ||
     collinearOverlapMoreThanEndpoint x0 y0 x1 y1 c.1.1 c.1.2 c.2.1 c.2.2)

/-- The map state after one successful addLine((0,0),(50,0)) call. -/
def boxFirstLine50 : MState :=
  match addLine MState.empty 0 0 50 0 false with
  | .ok (st, _) => st
  | .error _ => MState.empty

/-- Claim C8 counterexample: on the one-line map, the candidate segment
(0,0)-(100,0) collinearly overlaps the existing line (0,0)-(50,0) far
beyond their shared endpoint, yet the source returns null because it
skips every line sharing an endpoint; the spec reading returns the line. -/
theorem claim8_shared_endpoint_overlap_not_reported :
    wouldSegmentCrossAny boxFirstLine50.core 0 0 100 0 (0, 0) (100, 0) [] = none ∧
    wouldSegmentCrossAnySpec boxFirstLine50.core 0 0 100 0 (0, 0) (100, 0) [] = some 2 ∧
    collinearOverlapMoreThanEndpoint 0 0 100 0 0 0 50 0 = true ∧
    (lineCoords boxFirstLine50.core 2) = ((0, 0), (50, 0)) := by
  exact ⟨rfl, rfl, rfl, rfl⟩

/-- The predicate actually implemented: additionally excludes every line
sharing an endpoint with the candidate segment. -/
def crossCandB (m : MapCore) (x0 y0 x1 y1 : Int) (ignore : List Nat) (lid : Nat) : Bool :=
  let c := lineCoords m lid
  !(decide (lid ∈ ignore)) &&
  !((x0 = c.1.1 && y0 = c.1.2) || (x0 = c.2.1 && y0 = c.2.2) ||
    (x1 = c.1.1 && y1 = c.1.2) || (x1 = c.2.1 && y1 = c.2.2)) &&
  (segmentsProperlyIntersect x0 y0 x1 y1 c.1.1 c.1.2 c.2.1 c.2.2 ||
   collinearOverlapMoreThanEndpoint x0 y0 x1 y1 c.1.1 c.1.2 c.2.1 c.2.2)

/-- An early-stopping fold that keeps its first hit equals find?. -/
theorem foldl_first_eq_find (p : Nat → Bool) (l : List Nat) :
    l.foldl
      (fun res lid =>
        match res with
        | some r => some r
        | none => if p lid then some lid else none)
      none = l.find? p := by
  have haux : ∀ (l : List Nat) (r : Nat),
      l.foldl
        (fun res lid =>
          match res with
          | some r => some r
          | none => if p lid then some lid else none)
        (some r) = some r := by
    intro l
    induction l with
    | nil => intro r; rfl
    | cons a t ih => intro r; simpa using ih r
  induction l with
  | nil => rfl
  | cons a t ih =>
      by_cases hp : p a = true
      · simp [List.find?, hp, haux]
      · simp only [Bool.not_eq_true] at hp
        simp [List.find?, hp, ih]

/-- Collapsing the skip chain of the query callback into one condition. -/
theorem ite_chain (sh pr ov : Bool) (lid : Nat) :
    (if sh then (none : Option Nat) else if pr then some lid else if ov then some lid else none) =
      (if (!sh && (pr || ov)) then some lid else none) := by
  cases sh <;> cases pr <;> cases ov <;> rfl

/-- Claim C8 amended: `would_segment_cross_any` returns the first line of
the bounded query, outside the ignore set AND not sharing an endpoint
with the candidate, that properly intersects it or overlaps it
collinearly beyond a single point; it returns null exactly when no line
of the query satisfies that (endpoint-sharing lines are never
reported). -/
theorem claim8_amended_first_crossing (m : MapCore) (x0 y0 x1 y1 : Int) (bmin bmax : Int × Int)
    (ignore : List Nat) :
    wouldSegmentCrossAny m x0 y0 x1 y1 bmin bmax ignore =
      (iterLinesBounded m bmin bmax).find? (crossCandB m x0 y0 x1 y1 ignore) ∧
    (wouldSegmentCrossAny m x0 y0 x1 y1 bmin bmax ignore = none ↔
      ∀ lid ∈ iterLinesBounded m bmin bmax, crossCandB m x0 y0 x1 y1 ignore lid = false) := by
  have hmain : wouldSegmentCrossAny m x0 y0 x1 y1 bmin bmax ignore =
      (iterLinesBounded m bmin bmax).find? (crossCandB m x0 y0 x1 y1 ignore) := by
    unfold wouldSegmentCrossAny
    rw [← foldl_first_eq_find]
    congr 1
    funext res lid
    cases res with
    | some r => rfl
    | none =>
        by_cases hi : lid ∈ ignore
        · simp [crossCandB, hi]
        · simp only [crossCandB, hi, if_false, decide_False, Bool.not_false, Bool.true_and,
            ite_false]
          rw [ite_chain]
  refine ⟨hmain, ?_⟩
  rw [hmain, List.find?_eq_none]
  constructor
  · intro h lid hl
    simpa using h lid hl
  · intro h lid hl
    simp [h lid hl]

/-! ## Claim C2: scratch references after a completed rebuild -/

/-- Characterization of lookup after a pointwise heap update. -/
theorem alistLookup_update {α : Type} (h : List (Nat × α)) (k k' : Nat) (f : α → α) :
    alistLookup (alistUpdate h k f) k' =
      if k' = k then (alistLookup h k').map f else alistLookup h k' := by
  induction h with
  | nil => by_cases hk : k' = k <;> simp [alistLookup, alistUpdate, hk]
  | cons p t ih =>
      simp only [alistUpdate] at ih
      by_cases hpk : p.1 = k
      · by_cases hpk' : p.1 = k'
        · have hk : k' = k := by rw [← hpk', hpk]
          simp [alistLookup, alistUpdate, hpk, hpk', hk, ih]
        · have hk : ¬ k' = k := fun h => hpk' (h ▸ hpk)
          have hk2 : ¬ k = k' := fun h => hk h.symm
          simp [alistLookup, alistUpdate, hpk, hpk', hk, hk2, ih]
      · by_cases hpk' : p.1 = k'
        · have hk : ¬ k' = k := fun h => hpk (hpk'.trans h)
          simp [alistLookup, alistUpdate, hpk, hpk', hk]
        · simp [alistLookup, alistUpdate, hpk, hpk', ih]

/-- The scratch projection of a line: both sides' sectorOld and
sectorOverride. -/
def sideScratch (l : LineObj) : Option Nat × Option Nat × Option Nat × Option Nat :=
  (l.front.sectorOld, l.back.sectorOld, l.front.sectorOverride, l.back.sectorOverride)

/-- Two map states agreeing on the lines array and on the scratch fields
of every heap line. -/
def scratchPres (m m' : MapCore) : Prop :=
  m'.lines = m.lines ∧
  ∀ lid, (alistLookup m'.lheap lid).map sideScratch = (alistLookup m.lheap lid).map sideScratch

theorem scratchPres.refl (m : MapCore) : scratchPres m m := ⟨rfl, fun _ => rfl⟩

theorem scratchPres.trans {a b c : MapCore} (h1 : scratchPres a b) (h2 : scratchPres b c) :
    scratchPres a c :=
  ⟨h2.1.trans h1.1, fun lid => (h2.2 lid).trans (h1.2 lid)⟩

/-- A heap update that does not change the scratch projection preserves
`scratchPres` (lines untouched by assumption on the record update). -/
theorem scratchPres_update (m : MapCore) (k : Nat) (f : LineObj → LineObj)
    (hf : ∀ l, sideScratch (f l) = sideScratch l) :
    scratchPres m { m with lheap := alistUpdate m.lheap k f } := by
  refine ⟨rfl, fun lid => ?_⟩
  show (alistLookup (alistUpdate m.lheap k f) lid).map sideScratch = _
  rw [alistLookup_update]
  by_cases h : lid = k
  · simp [h, Option.map_map]
    cases alistLookup m.lheap k with
    | none => rfl
    | some l => simp [Function.comp, hf]
  · simp [h]

/-- All heap lines have null sectorOld on both sides. -/
def allOldNull (m : MapCore) : Prop :=
  ∀ lid l, alistLookup m.lheap lid = some l →
    l.front.sectorOld = none ∧ l.back.sectorOld = none

/-- scratchPres transports allOldNull backwards along the preserved
projections. -/
theorem allOldNull_of_scratchPres {m m' : MapCore} (h : scratchPres m m')
    (hOld : allOldNull m) : allOldNull m' := by
  intro lid l hl
  have := h.2 lid
  rw [hl] at this
  cases hm : alistLookup m.lheap lid with
  | none => rw [hm] at this; simp at this
  | some l0 =>
      rw [hm] at this
      simp [sideScratch] at this
      obtain ⟨h1, h2, _, _⟩ := this
      have := hOld lid l0 hm
      exact ⟨h1 ▸ this.1, h2 ▸ this.2⟩

/-- A foldlM whose step preserves the sector heap preserves it overall. -/
theorem foldlM_sheap_pres {β : Type} (f : MapCore → β → Except String MapCore)
    (hf : ∀ m b m', f m b = .ok m' → m'.sheap = m.sheap) :
    ∀ (l : List β) (m m' : MapCore), l.foldlM f m = .ok m' → m'.sheap = m.sheap := by
  intro l
  induction l with
  | nil => intro m m' h; cases h; rfl
  | cons b t ih =>
      intro m m' h
      rw [List.foldlM_cons] at h
      cases hb : f m b with
      | error e => rw [hb] at h; exact absurd h (by simp [ebind_err])
      | ok m1 =>
          rw [hb, ebind_ok] at h
          exact (ih m1 m' h).trans (hf m b m1 hb)

/-- The per-line step of Sector.clearLines only touches the line heap. -/
theorem clearLines_step_sheap (sid : Nat) (m : MapCore) (lid : Nat) (m' : MapCore)
    (h : (fun (m : MapCore) (lid : Nat) => do
        let some l := alistLookup m.lheap lid | Except.error ("Missing line object")
        if l.back.sector = some sid then
          pure { m with lheap := alistUpdate m.lheap lid (fun l => { l with back := { l.back with sector := none } }) }
        else if l.front.sector = some sid then
          pure { m with lheap := alistUpdate m.lheap lid (fun l => { l with front := { l.front with sector := none } }) }
        else
          Except.error ("Line not connected to this sector")) m lid = .ok m') :
    m'.sheap = m.sheap := by
  simp only [] at h
  cases hl : alistLookup m.lheap lid with
  | none => rw [hl] at h; exact absurd h (by simp)
  | some l =>
      rw [hl] at h
      by_cases hb : l.back.sector = some sid
      · simp only [hb, if_true, epure] at h
        cases h; rfl
      · by_cases hfr : l.front.sector = some sid
        · simp only [hb, hfr, if_false, if_true, epure] at h
          cases h; rfl
        · simp only [hb, hfr, if_false] at h
          exact absurd h (by simp)

/-- Sector.clearLines (when it succeeds) only clears the boundary list of
the sector in the sector heap. -/
theorem clearLinesS_sheap (m : MapCore) (sid : Nat) (m' : MapCore)
    (h : clearLinesS m sid = .ok m') :
    m'.sheap = alistUpdate m.sheap sid (fun s => { s with lineIds := [] }) := by
  unfold clearLinesS at h
  by_cases hin : (sectorObj m sid).inMap
  · rw [if_pos hin] at h
    exact absurd h (by simp [ebind_err])
  · rw [if_neg hin] at h
    cases hf : (sectorObj m sid).lineIds.foldlM
        (fun (m : MapCore) (lid : Nat) => do
          let some l := alistLookup m.lheap lid | Except.error ("Missing line object")
          if l.back.sector = some sid then
            pure { m with lheap := alistUpdate m.lheap lid (fun l => { l with back := { l.back with sector := none } }) }
          else if l.front.sector = some sid then
            pure { m with lheap := alistUpdate m.lheap lid (fun l => { l with front := { l.front with sector := none } }) }
          else
            Except.error ("Line not connected to this sector")) m with
    | error e => rw [hf] at h; exact absurd h (by simp [ebind_err])
    | ok m2 =>
        rw [hf, ebind_ok] at h
        cases h
        have := foldlM_sheap_pres _ (clearLines_step_sheap sid) _ m m2 hf
        rw [this]

/-- Updating a sector heap entry with a function preserving `inMap`
preserves the observed `inMap` flag. -/
theorem sectorObj_update_inMap (m : MapCore) (sid : Nat) (f : SectorObj → SectorObj)
    (hf : ∀ s, (f s).inMap = s.inMap) (sh : List (Nat × SectorObj)) :
    (sectorObj { m with sheap := alistUpdate sh sid f } sid).inMap =
      (sectorObj { m with sheap := sh } sid).inMap := by
  show ((alistLookup (alistUpdate sh sid f) sid).getD _).inMap = _
  rw [alistLookup_update]
  cases hl : alistLookup sh sid with
  | none => simp [sectorObj, hl]
  | some s => simp [sectorObj, hl, hf]

/-- DoomMap.#removeSector never succeeds: either the sector is not
registered, or clearLines throws on the still-registered sector, or (for
an unregistered heap entry) removeFromMap throws. -/
theorem removeSector_not_ok (m : MapCore) (sid : Nat) (m' : MapCore) :
    removeSector m sid ≠ .ok m' := by
  intro h
  unfold removeSector at h
  cases hi : m.sectors.indexOf? sid with
  | none => rw [hi] at h; exact absurd h (by simp)
  | some i =>
      rw [hi] at h
      simp only [ebind_ok] at h
      cases hc : clearLinesS m sid with
      | error e => rw [hc] at h; exact absurd h (by simp [ebind_err])
      | ok m1 =>
          rw [hc, ebind_ok] at h
          have hin : (sectorObj m sid).inMap = false := by
            unfold clearLinesS at hc
            by_cases hin : (sectorObj m sid).inMap
            · rw [if_pos hin] at hc
              exact absurd hc (by simp [ebind_err])
            · simpa using hin
          have hsh := clearLinesS_sheap m sid m1 hc
          have hin1 : (sectorObj m1 sid).inMap = false := by
            have h1 : (sectorObj { m1 with sheap := m1.sheap } sid).inMap =
                (sectorObj m1 sid).inMap := rfl
            have h2 := sectorObj_update_inMap m1 sid
              (fun s => { s with lineIds := [] }) (fun _ => rfl) m.sheap
            have h3 : (sectorObj { m1 with sheap := m.sheap } sid).inMap =
                (sectorObj m sid).inMap := by
              simp [sectorObj]
            rw [show sectorObj m1 sid = sectorObj { m1 with sheap := m1.sheap } sid from rfl]
            rw [show m1.sheap = alistUpdate m.sheap sid (fun s => { s with lineIds := [] }) from hsh]
            rw [h2, h3, hin]
          unfold removeFromMap at h
          rw [show (sectorObj
              { m1 with grid := gridRemove m1.grid (.s sid) (sectorObj m1 sid).bnds,
                        sectors := m1.sectors.eraseIdx i } sid).inMap =
              (sectorObj m1 sid).inMap from rfl] at h
          rw [hin1] at h
          exact absurd h (by simp [ebind_err])

/-- A non-empty foldlM over removeSector cannot succeed, so success
forces the invalidated set to be empty and the state unchanged. -/
theorem foldlM_removeSector_ok (inv : List Nat) (m m' : MapCore)
    (h : inv.foldlM removeSector m = .ok m') : inv = [] ∧ m' = m := by
  cases inv with
  | nil => cases h; exact ⟨rfl, rfl⟩
  | cons a t =>
      rw [List.foldlM_cons] at h
      cases hr : removeSector m a with
      | error e => rw [hr] at h; exact absurd h (by simp [ebind_err])
      | ok m1 => exact absurd hr (removeSector_not_ok m a m1)

/-- setAdd extends the list on the right. -/
theorem setAdd_grows {α : Type} [DecidableEq α] (l : List α) (x : α) : l <+: setAdd l x := by
  unfold setAdd
  split
  · exact List.prefix_refl l
  · exact ⟨[x], rfl⟩

/-- setAdd never yields the empty list. -/
theorem setAdd_ne_nil {α : Type} [DecidableEq α] (l : List α) (x : α) : setAdd l x ≠ [] := by
  unfold setAdd
  split
  · intro h
    subst h
    simp_all
  · simp

/-- The invalidation step extends the invalidated set on the right. -/
theorem invStep_grows (st : MapCore × List Nat) (lid : Nat) : st.2 <+: (invStep st lid).2 := by
  obtain ⟨m, inv⟩ := st
  unfold invStep
  cases hl : alistLookup m.lheap lid with
  | none => simp [hl]
  | some l =>
      simp only [hl]
      cases hf : l.front.sector with
      | none =>
          cases hb : l.back.sector with
          | none => simp [hf, hb]
          | some s =>
              simp only [hf, hb]
              simpa using setAdd_grows inv s
      | some s =>
          cases hb : l.back.sector with
          | none =>
              simp only [hf, hb]
              simpa using setAdd_grows inv s
          | some s2 =>
              simp only [hf, hb]
              simpa using (setAdd_grows inv s).trans (setAdd_grows (setAdd inv s) s2)

/-- The invalidation fold extends the invalidated set on the right. -/
theorem invFold_grows (ls : List Nat) (st : MapCore × List Nat) :
    st.2 <+: (ls.foldl invStep st).2 := by
  induction ls generalizing st with
  | nil => exact List.prefix_refl _
  | cons a t ih => exact (invStep_grows st a).trans (ih (invStep st a))

/-- The invalidation step keeps the lines array. -/
theorem invStep_lines (st : MapCore × List Nat) (lid : Nat) :
    (invStep st lid).1.lines = st.1.lines := by
  obtain ⟨m, inv⟩ := st
  unfold invStep
  cases hl : alistLookup m.lheap lid with
  | none => simp [hl]
  | some l =>
      simp [hl]

/-- The invalidation fold keeps the lines array. -/
theorem invFold_lines (ls : List Nat) (st : MapCore × List Nat) :
    (ls.foldl invStep st).1.lines = st.1.lines := by
  induction ls generalizing st with
  | nil => rfl
  | cons a t ih => exact (ih (invStep st a)).trans (invStep_lines st a)

/-- One invalidation step on a state with all sectorOld null: if its
result set is required empty, the incoming set was empty, the touched
sides held no sector, and all sectorOld stay null. -/
theorem invStep_oldNull (st : MapCore × List Nat) (lid : Nat)
    (hOld : allOldNull st.1) (hnil : (invStep st lid).2 = []) :
    allOldNull (invStep st lid).1 := by
  obtain ⟨m, inv⟩ := st
  unfold invStep at hnil ⊢
  cases hl : alistLookup m.lheap lid with
  | none => simp only [hl]; simpa using hOld
  | some l =>
      simp only [hl] at hnil ⊢
      cases hf : l.front.sector with
      | some s =>
          exfalso
          simp only [hf] at hnil
          cases hb : l.back.sector with
          | none =>
              simp only [hb] at hnil
              exact setAdd_ne_nil inv s hnil
          | some s2 =>
              simp only [hb] at hnil
              exact setAdd_ne_nil (setAdd inv s) s2 hnil
      | none =>
          cases hb : l.back.sector with
          | some s2 =>
              exfalso
              simp only [hf, hb] at hnil
              exact setAdd_ne_nil inv s2 hnil
          | none =>
              intro lid' l' hl'
              simp only [] at hl'
              by_cases he : lid' = lid
              · subst he
                rw [alistLookup_update, if_pos rfl, alistLookup_update, if_pos rfl, hl] at hl'
                simp only [Option.map] at hl'
                cases hl'
                exact ⟨hf, hb⟩
              · rw [alistLookup_update, if_neg he, alistLookup_update, if_neg he] at hl'
                exact hOld lid' l' hl'

/-- The invalidation fold on an all-null state with empty final set keeps
all sectorOld null. -/
theorem invFold_oldNull (ls : List Nat) (st : MapCore × List Nat)
    (hOld : allOldNull st.1) (hnil : (ls.foldl invStep st).2 = []) :
    allOldNull (ls.foldl invStep st).1 := by
  induction ls generalizing st with
  | nil => simpa using hOld
  | cons a t ih =>
      rw [List.foldl_cons] at hnil ⊢
      have hstep : (invStep st a).2 = [] := by
        have := invFold_grows t (invStep st a)
        rw [hnil] at this
        exact List.prefix_nil.mp this
      exact ih (invStep st a) (invStep_oldNull st a hOld hstep) hnil

/-- A pure fold of scratch-preserving steps preserves scratch. -/
theorem foldl_scratchPres {β : Type} (f : MapCore → β → MapCore)
    (hf : ∀ m b, scratchPres m (f m b)) :
    ∀ (l : List β) (m : MapCore), scratchPres m (l.foldl f m) := by
  intro l
  induction l with
  | nil => exact fun m => scratchPres.refl m
  | cons b t ih => exact fun m => (hf m b).trans (ih (f m b))

/-- A monadic fold of scratch-preserving steps preserves scratch. -/
theorem foldlM_scratchPres {β : Type} (f : MapCore → β → Except String MapCore)
    (hf : ∀ m b m', f m b = .ok m' → scratchPres m m') :
    ∀ (l : List β) (m m' : MapCore), l.foldlM f m = .ok m' → scratchPres m m' := by
  intro l
  induction l with
  | nil => intro m m' h; cases h; exact scratchPres.refl m
  | cons b t ih =>
      intro m m' h
      rw [List.foldlM_cons] at h
      cases hb : f m b with
      | error e => rw [hb] at h; exact absurd h (by simp [ebind_err])
      | ok m1 =>
          rw [hb, ebind_ok] at h
          exact (hf m b m1 hb).trans (ih m1 m' h)

/-- Changing only non-line fields preserves scratch. -/
theorem scratchPres_other (m m' : MapCore) (h1 : m'.lines = m.lines) (h2 : m'.lheap = m.lheap) :
    scratchPres m m' := ⟨h1, fun lid => by rw [h2]⟩

/-- The constructor step preserves scratch (its heap write touches only a
side's `sector` field). -/
theorem ctorStep_scratch (sid : Nat) (st : MapCore × List Nat × List Int) (id : Nat × LineDesc)
    (st' : MapCore × List Nat × List Int) (h : ctorStep sid st id = .ok st') :
    scratchPres st.1 st'.1 := by
  obtain ⟨m, lineIds, flatXY⟩ := st
  obtain ⟨i, d⟩ := id
  unfold ctorStep at h
  simp only [] at h
  cases hk : lmapGet m.lineMap (createLineKey d.dv0.1 d.dv0.2 d.dv1.1 d.dv1.2) with
  | none => rw [hk] at h; exact absurd h (by simp)
  | some lid =>
      rw [hk] at h
      simp only [] at h
      cases hl : alistLookup m.lheap lid with
      | none => rw [hl] at h; exact absurd h (by simp)
      | some l =>
          rw [hl] at h
          simp only [] at h
          by_cases hfr : d.front = true
          · rw [if_pos hfr] at h
            by_cases hs : l.front.sector ≠ none
            · rw [if_pos hs] at h
              exact absurd h (by simp [ebind_err])
            · rw [if_neg hs] at h
              simp only [epure, ebind_ok] at h
              cases h
              exact scratchPres_update m lid _ (fun l => rfl)
          · rw [if_neg hfr] at h
            by_cases hs : l.back.sector ≠ none
            · rw [if_pos hs] at h
              exact absurd h (by simp [ebind_err])
            · rw [if_neg hs] at h
              simp only [epure, ebind_ok] at h
              cases h
              exact scratchPres_update m lid _ (fun l => rfl)

/-- The constructor descriptor fold preserves scratch. -/
theorem foldlM_ctorStep_scratch (sid : Nat) :
    ∀ (l : List (Nat × LineDesc)) (st st' : MapCore × List Nat × List Int),
      l.foldlM (ctorStep sid) st = .ok st' → scratchPres st.1 st'.1 := by
  intro l
  induction l with
  | nil => intro st st' h; cases h; exact scratchPres.refl _
  | cons b t ih =>
      intro st st' h
      rw [List.foldlM_cons] at h
      cases hb : ctorStep sid st b with
      | error e => rw [hb] at h; exact absurd h (by simp [ebind_err])
      | ok st1 =>
          rw [hb, ebind_ok] at h
          exact (ctorStep_scratch sid st b st1 hb).trans (ih st1 st' h)

/-- The sector constructor preserves scratch. -/
theorem sectorCtor_scratch (m : MapCore) (descs : List LineDesc) (m' : MapCore) (sid : Nat)
    (h : sectorCtor m descs = .ok (m', sid)) : scratchPres m m' := by
  unfold sectorCtor at h
  simp only [] at h
  cases hf : descs.enum.foldlM (ctorStep m.nextId) ({ m with nextId := m.nextId + 1 }, [], []) with
  | error e => rw [hf] at h; exact absurd h (by simp [ebind_err])
  | ok st =>
      rw [hf, ebind_ok] at h
      obtain ⟨m2, lineIds, flatXY⟩ := st
      simp only [epure] at h
      cases h
      have h0 : scratchPres m { m with nextId := m.nextId + 1 } := scratchPres_other _ _ rfl rfl
      have h1 := foldlM_ctorStep_scratch m.nextId descs.enum _ _ hf
      have h2 : scratchPres m2 { m2 with sheap := m2.sheap ++
          [(m.nextId,
            { lineIds := lineIds, flatXY := flatXY, parent := none, children := [],
              props := SectorProps.init, inMap := false, bnds := descBounds descs })] } :=
        scratchPres_other _ _ rfl rfl
      exact (h0.trans h1).trans h2

/-- Splitting a successful bind of fallible computations. -/
theorem ebind_ok_elim {α β : Type} (x : Except String α) (k : α → Except String β) (b : β)
    (h : x >>= k = .ok b) : ∃ a, x = .ok a ∧ k a = .ok b := by
  cases x with
  | error e => exact absurd h (by simp [ebind_err])
  | ok a => rw [ebind_ok] at h; exact ⟨a, rfl, h⟩

/-- The parent search step only rewrites the sector heap. -/
theorem parentStep_scratch (sid : Nat) (b1 : BoundsR) (m : MapCore) (other : Nat) :
    scratchPres m (parentStep sid b1 m other) := by
  refine scratchPres_other _ _ ?_ ?_ <;>
  · unfold parentStep
    split
    · rfl
    · dsimp only
      split <;> rfl

/-- The adoption step only rewrites the sector heap. -/
theorem adoptStep_scratch (sid : Nat) (b1 : BoundsR) (m : MapCore) (other : Nat) :
    scratchPres m (adoptStep sid b1 m other) := by
  refine scratchPres_other _ _ ?_ ?_ <;>
  · unfold adoptStep
    split
    · rfl
    · dsimp only
      split
      · split <;> rfl
      · rfl

/-- The open-side patching step writes only a side's `sector` field, so
the scratch projection is preserved. -/
theorem patchStep_scratch (sid : Nat) (par : Option Nat) (m : MapCore) (lid : Nat) :
    scratchPres m (patchStep sid par m lid) := by
  unfold patchStep
  split
  · split
    · exact scratchPres_update m lid _ (fun l => rfl)
    · split
      · exact scratchPres_update m lid _ (fun l => rfl)
      · exact scratchPres.refl m
  · exact scratchPres.refl m

/-- Sector.addToMap preserves the scratch projection of every line. -/
theorem addToMap_scratch (m : MapCore) (sid : Nat) (m' : MapCore)
    (h : addToMap m sid = .ok m') : scratchPres m m' := by
  unfold addToMap at h
  by_cases hin : (sectorObj m sid).inMap
  · rw [if_pos hin] at h
    exact absurd h (by simp [ebind_err])
  · rw [if_neg hin] at h
    simp only [epure] at h
    cases h
    refine scratchPres.trans ?_ (foldl_scratchPres _ (patchStep_scratch sid _) _ _)
    refine scratchPres.trans ?_ (foldl_scratchPres _ (adoptStep_scratch sid _) _ _)
    split
    · refine scratchPres.trans ?_ (scratchPres_other _ _ rfl rfl)
      refine scratchPres.trans ?_ (foldl_scratchPres _ (parentStep_scratch sid _) _ _)
      exact scratchPres_other _ _ rfl rfl
    · refine scratchPres.trans ?_ (foldl_scratchPres _ (parentStep_scratch sid _) _ _)
      exact scratchPres_other _ _ rfl rfl

/-- Sector.clone preserves the scratch projection (its extra write copies
only sector properties). -/
theorem cloneSector_scratch (m : MapCore) (tmpl : Nat) (descs : List LineDesc)
    (m' : MapCore) (sid : Nat) (h : cloneSector m tmpl descs = .ok (m', sid)) :
    scratchPres m m' := by
  unfold cloneSector at h
  cases hc : sectorCtor m descs with
  | error e => rw [hc] at h; exact absurd h (by simp [ebind_err])
  | ok p =>
      rw [hc, ebind_ok] at h
      simp only [epure, Except.ok.injEq, Prod.mk.injEq] at h
      obtain ⟨hm, hs⟩ := h
      subst hm
      exact (sectorCtor_scratch m descs p.1 p.2 hc).trans (scratchPres_other _ _ rfl rfl)

/-- DoomMap.#addSector preserves the scratch projection. -/
theorem addSector_scratch (m : MapCore) (sid : Nat) (m' : MapCore)
    (h : addSector m sid = .ok m') : scratchPres m m' := by
  unfold addSector at h
  cases ha : addToMap m sid with
  | error e => rw [ha] at h; exact absurd h (by simp [ebind_err])
  | ok m1 =>
      rw [ha, ebind_ok] at h
      simp only [epure] at h
      cases h
      exact (addToMap_scratch m sid m1 ha).trans (scratchPres_other _ _ rfl rfl)

/-- Registering the sector of one traced loop preserves the scratch
projection. -/
theorem addSectorFromLoop_scratch (edges : List DEdge) (m : MapCore)
    (loop : List Nat × List Int) (m' : MapCore)
    (h : addSectorFromLoop edges m loop = .ok m') : scratchPres m m' := by
  unfold addSectorFromLoop at h
  simp only [] at h
  split at h
  · obtain ⟨p, hx, hk⟩ := ebind_ok_elim _ _ _ h
    exact (cloneSector_scratch _ _ _ p.1 p.2 hx).trans (addSector_scratch p.1 p.2 m' hk)
  · obtain ⟨p, hx, hk⟩ := ebind_ok_elim _ _ _ h
    exact (sectorCtor_scratch _ _ p.1 p.2 hx).trans (addSector_scratch p.1 p.2 m' hk)

/-- Both override fields are null at a heap line. -/
def ovNullAt (m : MapCore) (lid : Nat) : Prop :=
  ∀ l, alistLookup m.lheap lid = some l →
    l.front.sectorOverride = none ∧ l.back.sectorOverride = none

/-- The clearing step nulls the overrides of its own line and keeps every
line already cleared. -/
theorem clearOvStep_sets (m : MapCore) (k lid : Nat) (h : lid = k ∨ ovNullAt m lid) :
    ovNullAt (clearOvStep m k) lid := by
  intro l hl
  unfold clearOvStep at hl
  simp only [] at hl
  rw [alistLookup_update] at hl
  by_cases he : lid = k
  · rw [if_pos he] at hl
    cases hm : alistLookup m.lheap lid with
    | none => rw [hm] at hl; exact absurd hl (by simp)
    | some l0 =>
        rw [hm] at hl
        simp only [Option.map, Option.some.injEq] at hl
        rw [← hl]
        exact ⟨rfl, rfl⟩
  · rw [if_neg he] at hl
    rcases h with h | h
    · exact absurd h he
    · exact h l hl

/-- The clearing step keeps all sectorOld fields. -/
theorem clearOvStep_oldNull (m : MapCore) (k : Nat) (h : allOldNull m) :
    allOldNull (clearOvStep m k) := by
  intro lid l hl
  unfold clearOvStep at hl
  simp only [] at hl
  rw [alistLookup_update] at hl
  by_cases he : lid = k
  · rw [if_pos he] at hl
    cases hm : alistLookup m.lheap lid with
    | none => rw [hm] at hl; exact absurd hl (by simp)
    | some l0 =>
        rw [hm] at hl
        simp only [Option.map, Option.some.injEq] at hl
        have := h lid l0 hm
        rw [← hl]
        exact this
  · rw [if_neg he] at hl
    exact h lid l hl

/-- The clearing fold keeps the lines array. -/
theorem clearOvFold_lines (ls : List Nat) (m : MapCore) :
    (ls.foldl clearOvStep m).lines = m.lines := by
  induction ls generalizing m with
  | nil => rfl
  | cons a t ih => exact ih (clearOvStep m a)

/-- The clearing fold keeps all sectorOld fields. -/
theorem clearOvFold_oldNull (ls : List Nat) (m : MapCore) (h : allOldNull m) :
    allOldNull (ls.foldl clearOvStep m) := by
  induction ls generalizing m with
  | nil => exact h
  | cons a t ih => exact ih _ (clearOvStep_oldNull m a h)

/-- The clearing fold keeps every already cleared line cleared. -/
theorem clearOvFold_pres (ls : List Nat) (m : MapCore) (lid : Nat) (h : ovNullAt m lid) :
    ovNullAt (ls.foldl clearOvStep m) lid := by
  induction ls generalizing m with
  | nil => exact h
  | cons a t ih => exact ih _ (clearOvStep_sets m a lid (Or.inr h))

/-- Every line visited by the clearing fold ends with null overrides. -/
theorem clearOvFold_sets (ls : List Nat) (m : MapCore) (lid : Nat) (h : lid ∈ ls) :
    ovNullAt (ls.foldl clearOvStep m) lid := by
  induction ls generalizing m with
  | nil => cases h
  | cons a t ih =>
      rw [List.foldl_cons]
      by_cases he : lid ∈ t
      · exact ih (clearOvStep m a) he
      · have ha : lid = a := by
          rcases List.mem_cons.mp h with h' | h'
          · exact h'
          · exact absurd h' he
        exact clearOvFold_pres t _ lid (clearOvStep_sets m a lid (Or.inl ha))

/-- Decidable check that all heap lines have null sectorOld fields. -/
def allOldNullB (m : MapCore) : Bool :=
  m.lheap.all fun p => p.2.front.sectorOld == none && p.2.back.sectorOld == none

/-- A successful association lookup comes from a list entry. -/
theorem alistLookup_mem {α : Type} : ∀ (al : List (Nat × α)) (k : Nat) (v : α),
    alistLookup al k = some v → (k, v) ∈ al := by
  intro al
  induction al with
  | nil => intro k v h; simp [alistLookup] at h
  | cons p t ih =>
      intro k v h
      simp only [alistLookup] at h
      by_cases hk : p.1 = k
      · rw [if_pos hk] at h
        have : (k, v) = p := by rw [← hk, ← Option.some.inj h]
        exact this ▸ List.mem_cons_self p t
      · rw [if_neg hk] at h
        exact List.mem_cons_of_mem _ (ih k v h)

/-- The boolean sectorOld check implies the propositional one. -/
theorem allOldNull_of_allOldNullB (m : MapCore) (h : allOldNullB m = true) : allOldNull m := by
  intro lid l hl
  have hmem := alistLookup_mem m.lheap lid l hl
  have := List.all_eq_true.mp h (lid, l) hmem
  simp only [Bool.and_eq_true, beq_iff_eq] at this
  exact this

/-- C2: After rebuildSectors() returns (a completed rebuild of a
non-empty modified set, starting from the reachable-state invariant that
all `sectorOld` references are already null), every line in the map has
both the `sectorOld` and `sectorOverride` scratch references equal to
null on both of its sides — for every line of the map, not only the
local working set. -/
theorem claim2_rebuild_clears_scratch (m m' : MapCore)
    (hmod : m.modifiedLines ≠ []) (hOld : allOldNull m)
    (hok : rebuildSectors m = .ok m') :
    ∀ lid ∈ m'.lines, ∀ l, alistLookup m'.lheap lid = some l →
      l.front.sectorOld = none ∧ l.back.sectorOld = none ∧
      l.front.sectorOverride = none ∧ l.back.sectorOverride = none := by
  unfold rebuildSectors at hok
  have hie : m.modifiedLines.isEmpty = false := by
    cases hml : m.modifiedLines with
    | nil => exact absurd hml hmod
    | cons a t => rfl
  rw [if_neg (by simp [hie])] at hok
  simp only [] at hok
  rcases hinv : invalidatePhase m (computeLocals m) with ⟨m1, inv⟩
  rw [hinv] at hok
  obtain ⟨m2, h1, hok2⟩ := ebind_ok_elim _ _ _ hok
  clear hok
  obtain ⟨hinvnil, hm21⟩ := foldlM_removeSector_ok inv m1 m2 h1
  rw [hm21] at hok2
  subst hinvnil
  rcases hbe : buildEdges m1 (computeLocals m) with ⟨edges, outg⟩
  rw [hbe] at hok2
  obtain ⟨m3, h2, hok3⟩ := ebind_ok_elim _ _ _ hok2
  clear hok2
  simp only [epure, Except.ok.injEq] at hok3
  subst hok3
  have hfold : (computeLocals m).foldl invStep (m, []) = (m1, []) := hinv
  have hOld1 : allOldNull m1 := by
    have h3 := invFold_oldNull (computeLocals m) (m, []) hOld (by rw [hfold])
    rw [hfold] at h3
    exact h3
  have hpres : scratchPres m1 m3 :=
    foldlM_scratchPres (addSectorFromLoop edges)
      (fun mm b mm' hh => addSectorFromLoop_scratch edges mm b mm' hh)
      (traceAll m1 edges outg) m1 m3 h2
  have hOld3 : allOldNull m3 := allOldNull_of_scratchPres hpres hOld1
  intro lid hmem l hl
  have hmem3 : lid ∈ m3.lines := by
    have h4 := clearOvFold_lines m3.lines m3
    rw [← h4]
    exact hmem
  have hl3 : alistLookup (m3.lines.foldl clearOvStep m3).lheap lid = some l := hl
  obtain ⟨ho1, ho2⟩ := clearOvFold_sets m3.lines m3 lid hmem3 l hl3
  obtain ⟨hd1, hd2⟩ := clearOvFold_oldNull m3.lines m3 hOld3 lid l hl3
  exact ⟨hd1, hd2, ho1, ho2⟩

/-- The four box edges added with `skip_rebuild = true`: the deferred
working set that a following rebuild processes in one go. -/
def boxDeferred : Except String MState := do
  let (st, _) ← addLine MState.empty 0 0 100 0 true
  let (st, _) ← addLine st 100 0 100 100 true
  let (st, _) ← addLine st 100 100 0 100 true
  let (st, _) ← addLine st 0 100 0 0 true
  pure st

/-- The map core right before the deferred rebuild. -/
def boxPre : MapCore := ((boxDeferred.toOption).getD MState.empty).core

/-- The map core after the deferred rebuild. -/
def boxPost : MapCore := ((rebuildSectors boxPre).toOption).getD MapCore.empty

/-- The first registered line of the rebuilt box. -/
def boxPostLid : Nat := boxPost.lines.getD 0 0

/-- Its heap object after the rebuild. -/
def boxPostLine : LineObj :=
  (alistLookup boxPost.lheap boxPostLid).getD
    { v0 := 0, v1 := 0, front := SideObj.init, back := SideObj.init, flags := FlagsObj.init }

/-- Witness: the deferred box rebuild completes and its first line ends
with all four scratch references null. -/
theorem claim2_witness :
    boxPostLine.front.sectorOld = none ∧ boxPostLine.back.sectorOld = none ∧
    boxPostLine.front.sectorOverride = none ∧ boxPostLine.back.sectorOverride = none :=
  claim2_rebuild_clears_scratch boxPre boxPost (by decide)
    (allOldNull_of_allOldNullB boxPre (by rfl)) (by rfl)
    boxPostLid (by decide) boxPostLine (by rfl)

/-! ## The spatial grid invariant (claim C9) -/

/-- One grid registration step as the map code performs it: every public
operation funnels through `#addToSpatialGrid` / `#removeFromSpatialGrid`
with the entity's bounds. -/
inductive GridOp
  | add (e : GRef) (b : BoundsR)
  | rem (e : GRef) (b : BoundsR)
deriving DecidableEq, Repr

/-- Apply one registration step to the grid. -/
def applyOp (g : Grid) : GridOp → Grid
  | .add e b => gridAdd g e b
  | .rem e b => gridRemove g e b

/-- The grid after a sequence of registration steps on the fresh map. -/
def applyOps (ops : List GridOp) : Grid := ops.foldl applyOp []

/-- The registered-entity ledger the map keeps implicitly: adds append,
removes drop the entity. -/
def regApply (r : List (GRef × BoundsR)) : GridOp → List (GRef × BoundsR)
  | .add e b => r ++ [(e, b)]
  | .rem e _ => r.filter fun p => p.1 ≠ e

/-- The ledger after a sequence of registration steps. -/
def regOf (ops : List GridOp) : List (GRef × BoundsR) := ops.foldl regApply []

/-- Whether an entity is currently registered. -/
def regHas (r : List (GRef × BoundsR)) (e : GRef) : Bool := r.any fun p => p.1 = e

/-- Discipline of the call sites: an entity is added only while
unregistered and removed only while registered, with its bounds. -/
def validFrom : List (GRef × BoundsR) → List GridOp → Bool
  | _, [] => true
  | r, .add e b :: t => !(regHas r e) && validFrom (regApply r (.add e b)) t
  | r, .rem e b :: t => decide ((e, b) ∈ r) && validFrom (regApply r (.rem e b)) t

/-- A sequence of registration steps starting from the fresh map. -/
def validOps (ops : List GridOp) : Bool := validFrom [] ops

/-- Structural well-formedness of the grid: distinct column keys,
distinct cell keys, no empty column and no empty cell. -/
def GridWF (g : Grid) : Prop :=
  (g.map Prod.fst).Nodup ∧
  (∀ c ∈ g, (c.2.map Prod.fst).Nodup) ∧
  (∀ c ∈ g, c.2 ≠ []) ∧
  (∀ c ∈ g, ∀ cell ∈ c.2, cell.2 ≠ [])

/-- find? over an append looks left first. -/
theorem find?_append {α : Type} (p : α → Bool) :
    ∀ (l1 l2 : List α), (l1 ++ l2).find? p =
      ((l1.find? p).orElse fun _ => l2.find? p) := by
  intro l1 l2
  induction l1 with
  | nil => rfl
  | cons a t ih =>
      by_cases hp : p a = true
      · rw [List.cons_append, List.find?_cons_of_pos _ hp, List.find?_cons_of_pos _ hp]
        rfl
      · rw [List.cons_append, List.find?_cons_of_neg _ hp, List.find?_cons_of_neg _ hp]
        exact ih

/-- find? for a key commutes with a key-preserving map. -/
theorem find?_map_keypres {α : Type} (f : (Int × α) → (Int × α)) (hf : ∀ c, (f c).1 = c.1)
    (k : Int) : ∀ (g : List (Int × α)),
    (g.map f).find? (fun c => c.1 = k) = (g.find? (fun c => c.1 = k)).map f := by
  intro g
  induction g with
  | nil => rfl
  | cons c t ih =>
      by_cases hc : c.1 = k
      · rw [List.map_cons, List.find?_cons_of_pos _ (by simp [hf, hc]),
            List.find?_cons_of_pos _ (by simp [hc])]
        rfl
      · rw [List.map_cons, List.find?_cons_of_neg _ (by simp [hf, hc]),
            List.find?_cons_of_neg _ (by simp [hc])]
        exact ih

/-- find? for a key skips filtered-out entries that fail the key test. -/
theorem find?_filter_keep {α : Type} (p keep : α → Bool) :
    ∀ (l : List α), (∀ a ∈ l, keep a = false → p a = false) →
      (l.filter keep).find? p = l.find? p := by
  intro l
  induction l with
  | nil => intro _; rfl
  | cons a t ih =>
      intro h
      by_cases hk : keep a = true
      · rw [List.filter_cons, if_pos hk]
        by_cases hp : p a = true
        · rw [List.find?_cons_of_pos _ hp, List.find?_cons_of_pos _ hp]
        · rw [List.find?_cons_of_neg _ hp, List.find?_cons_of_neg _ hp]
          exact ih (fun x hx => h x (List.mem_cons_of_mem _ hx))
      · have hk' : keep a = false := by simpa using hk
        rw [List.filter_cons, if_neg hk]
        have hp : p a = false := h a (List.mem_cons_self a t) hk'
        rw [List.find?_cons_of_neg _ (by simp [hp])]
        exact ih (fun x hx => h x (List.mem_cons_of_mem _ hx))

/-- setAdd membership. -/
theorem mem_setAdd {α : Type} [DecidableEq α] (l : List α) (x a : α) :
    a ∈ setAdd l x ↔ a ∈ l ∨ a = x := by
  unfold setAdd
  by_cases hx : x ∈ l
  · rw [if_pos hx]
    constructor
    · exact Or.inl
    · rintro (h | rfl)
      · exact h
      · exact hx
  · rw [if_neg hx]
    simp

/-- intRange membership: the inclusive integer interval. -/
theorem mem_intRange (lo hi x : Int) : x ∈ intRange lo hi ↔ lo ≤ x ∧ x ≤ hi := by
  unfold intRange
  constructor
  · intro hx
    obtain ⟨i, hir, heq⟩ := List.mem_map.mp hx
    have hi2 : i < (hi + 1 - lo).toNat := List.mem_range.mp hir
    omega
  · intro h
    exact List.mem_map.mpr ⟨(x - lo).toNat, List.mem_range.mpr (by omega), by omega⟩

/-- cellsOfBounds membership: exactly the floor-divided component ranges. -/
theorem mem_cellsOfBounds (b : BoundsR) (cx cy : Int) :
    (cx, cy) ∈ cellsOfBounds b ↔
      (cellOf b.minX ≤ cx ∧ cx ≤ cellOf b.maxX ∧
       cellOf b.minY ≤ cy ∧ cy ≤ cellOf b.maxY) := by
  unfold cellsOfBounds
  simp only [List.mem_flatMap, List.mem_map, Prod.mk.injEq, mem_intRange]
  constructor
  · rintro ⟨x, ⟨h1, h2⟩, y, ⟨h3, h4⟩, hx, hy⟩
    subst hx; subst hy
    exact ⟨h1, h2, h3, h4⟩
  · rintro ⟨h1, h2, h3, h4⟩
    exact ⟨cx, ⟨h1, h2⟩, cy, ⟨h3, h4⟩, rfl, rfl⟩

/-- find? over an append when the left part fails. -/
theorem find?_append_none {α : Type} (p : α → Bool) (l1 l2 : List α)
    (h : l1.find? p = none) : (l1 ++ l2).find? p = l2.find? p := by
  rw [find?_append, h]; rfl

/-- find? over an append when the left part succeeds. -/
theorem find?_append_some {α : Type} (p : α → Bool) (l1 l2 : List α) (a : α)
    (h : l1.find? p = some a) : (l1 ++ l2).find? p = some a := by
  rw [find?_append, h]; rfl

/-- Membership after inserting one entity into one cell: the insertion
cell gains the entity, every other cell is untouched. -/
theorem gridAddCell_mem (g : Grid) (cx cy : Int) (e e' : GRef) (cx' cy' : Int) :
    e' ∈ gridCellRefs (gridAddCell g cx cy e) cx' cy' ↔
      (e' ∈ gridCellRefs g cx' cy' ∨ (e' = e ∧ cx' = cx ∧ cy' = cy)) := by
  unfold gridAddCell
  cases hfc : g.find? (fun c => c.1 = cx) with
  | none =>
      unfold gridCellRefs
      by_cases hx : cx' = cx
      · subst hx
        rw [hfc, find?_append_none _ _ _ hfc, List.find?_cons_of_pos _ (by simp)]
        simp only []
        by_cases hy : cy' = cy
        · subst hy
          rw [List.find?_cons_of_pos _ (by simp)]
          simp
        · rw [List.find?_cons_of_neg _ (by simp; omega), List.find?_nil]
          simp [hy]
      · have happ : (g ++ [(cx, [(cy, [e])])]).find? (fun c => c.1 = cx') =
            g.find? (fun c => c.1 = cx') := by
          cases hg1 : g.find? (fun c => c.1 = cx') with
          | some col => exact find?_append_some _ _ _ _ hg1
          | none =>
              rw [find?_append_none _ _ _ hg1, List.find?_cons_of_neg _ (by simp; omega),
                  List.find?_nil]
        rw [happ]
        simp [hx]
  | some col =>
      have hf : ∀ c : Int × List (Int × List GRef),
          ((fun c => if c.1 = cx then
              match c.2.find? (fun cell => cell.1 = cy) with
              | none => (c.1, c.2 ++ [(cy, [e])])
              | some _ => (c.1, c.2.map fun cell =>
                  if cell.1 = cy then (cell.1, setAdd cell.2 e) else cell)
            else c) c).1 = c.1 := by
        intro c
        dsimp only
        split
        · split <;> rfl
        · rfl
      unfold gridCellRefs
      rw [find?_map_keypres _ hf cx' g]
      by_cases hx : cx' = cx
      · subst hx
        rw [hfc]
        have hcol : col.1 = cx' := by simpa using List.find?_some hfc
        simp only [Option.map, if_pos hcol]
        cases hfcy : col.2.find? (fun cell => cell.1 = cy) with
        | none =>
            simp only []
            by_cases hy : cy' = cy
            · subst hy
              rw [find?_append_none _ _ _ hfcy, List.find?_cons_of_pos _ (by simp), hfcy]
              simp
            · have happ2 : (col.2 ++ [(cy, [e])]).find? (fun cell => cell.1 = cy') =
                  col.2.find? (fun cell => cell.1 = cy') := by
                cases hg2 : col.2.find? (fun cell => cell.1 = cy') with
                | some cell => exact find?_append_some _ _ _ _ hg2
                | none =>
                    rw [find?_append_none _ _ _ hg2,
                        List.find?_cons_of_neg _ (by simp; omega), List.find?_nil]
              rw [happ2]
              simp [hy]
        | some cell0 =>
            simp only []
            have hcf : ∀ cell : Int × List GRef,
                ((fun cell => if cell.1 = cy then (cell.1, setAdd cell.2 e) else cell) cell).1 =
                  cell.1 := by
              intro cell
              dsimp only
              split <;> rfl
            rw [find?_map_keypres _ hcf cy' col.2]
            by_cases hy : cy' = cy
            · subst hy
              rw [hfcy]
              have hcell : cell0.1 = cy' := by simpa using List.find?_some hfcy
              simp only [Option.map, if_pos hcell]
              simp [mem_setAdd]
            · cases hg2 : col.2.find? (fun cell => cell.1 = cy') with
              | none => simp [hy]
              | some cell1 =>
                  have hc1 : cell1.1 = cy' := by simpa using List.find?_some hg2
                  simp only [Option.map]
                  rw [if_neg (show ¬cell1.1 = cy by rw [hc1]; exact hy)]
                  simp [hy]
      · cases hg1 : g.find? (fun c => c.1 = cx') with
        | none => simp [hx]
        | some col1 =>
            have hc1 : col1.1 = cx' := by simpa using List.find?_some hg1
            simp only [Option.map]
            rw [if_neg (show ¬col1.1 = cx by rw [hc1]; exact hx)]
            simp [hx]

/-- Key lookup through a key-preserving map followed by a filter that can
only drop the looked-up key's entry (all other entries are kept). -/
theorem find?_mapfilter {α : Type} (f : (Int × α) → (Int × α)) (hf : ∀ c, (f c).1 = c.1)
    (keep : (Int × α) → Bool) (k : Int) :
    ∀ (l : List (Int × α)), (l.map Prod.fst).Nodup →
      ((l.map f).filter keep).find? (fun c => c.1 = k) =
        (match l.find? (fun c => c.1 = k) with
         | none => none
         | some c => if keep (f c) = true then some (f c) else none) := by
  intro l
  induction l with
  | nil => intro _; rfl
  | cons c t ih =>
      intro hnd
      by_cases hc : c.1 = k
      · rw [List.find?_cons_of_pos _ (by simp [hc])]
        simp only [List.map_cons, List.filter_cons]
        by_cases hk : keep (f c) = true
        · rw [if_pos hk, List.find?_cons_of_pos _ (by simp [hf, hc]), if_pos hk]
        · rw [if_neg hk, if_neg hk]
          apply List.find?_eq_none.mpr
          intro x hx
          have hx2 := List.mem_of_mem_filter hx
          obtain ⟨c0, hc0, rfl⟩ := List.mem_map.mp hx2
          have hc0k : c0.1 ≠ k := by
            intro he
            have : c.1 ∉ t.map Prod.fst := (List.nodup_cons.mp hnd).1
            exact this (List.mem_map.mpr ⟨c0, hc0, by rw [he, hc]⟩)
          simp [hf, hc0k]
      · rw [List.find?_cons_of_neg _ (by simp [hc])]
        simp only [List.map_cons, List.filter_cons]
        by_cases hk : keep (f c) = true
        · rw [if_pos hk, List.find?_cons_of_neg _ (by simp [hf, hc])]
          exact ih (List.nodup_cons.mp hnd).2
        · rw [if_neg hk]
          exact ih (List.nodup_cons.mp hnd).2

/-- Membership after removing one entity from one cell: the entity leaves
that cell, everything else is untouched (the emptied cell and emptied
column deletions do not change any cell's contents). -/
theorem gridRemoveCell_mem (g : Grid) (hwf : GridWF g) (cx cy : Int) (e e' : GRef)
    (cx' cy' : Int) :
    e' ∈ gridCellRefs (gridRemoveCell g cx cy e) cx' cy' ↔
      (e' ∈ gridCellRefs g cx' cy' ∧ ¬(e' = e ∧ cx' = cx ∧ cy' = cy)) := by
  obtain ⟨hkeys, hcells, hcolne, hcellne⟩ := hwf
  unfold gridRemoveCell gridCellRefs
  have hf : ∀ c : Int × List (Int × List GRef),
      ((fun c => if c.1 = cx then
          (c.1, (c.2.map fun cell =>
              if cell.1 = cy then (cell.1, cell.2.filter (· ≠ e)) else cell).filter
            fun cell => cell.2 ≠ [])
        else c) c).1 = c.1 := by
    intro c
    dsimp only
    split <;> rfl
  by_cases hx : cx' = cx
  · subst hx
    rw [find?_mapfilter _ hf _ cx' g hkeys]
    cases hfc : g.find? (fun c => c.1 = cx') with
    | none => simp
    | some col =>
        have hcol : col.1 = cx' := by simpa using List.find?_some hfc
        have hcolmem : col ∈ g := List.mem_of_find?_eq_some hfc
        simp only [if_pos hcol]
        by_cases hkc : ((col.2.map fun cell =>
            if cell.1 = cy then (cell.1, cell.2.filter (· ≠ e)) else cell).filter
              fun cell => cell.2 ≠ []) = []
        · rw [show (decide (((col.2.map fun cell =>
              if cell.1 = cy then (cell.1, cell.2.filter (· ≠ e)) else cell).filter
                fun cell => cell.2 ≠ []) ≠ [])) = false by rw [hkc]; rfl]
          simp only [Bool.false_eq_true, if_false]
          cases hfcy : col.2.find? (fun cell => cell.1 = cy') with
          | none => simp
          | some cell0 =>
              have hc0 : cell0.1 = cy' := by simpa using List.find?_some hfcy
              have hc0mem : cell0 ∈ col.2 := List.mem_of_find?_eq_some hfcy
              by_cases hy : cy' = cy
              · subst hy
                have hdrop : (cell0.1, cell0.2.filter (· ≠ e)).2 = [] := by
                  have hmem2 : (cell0.1, cell0.2.filter (· ≠ e)) ∈
                      col.2.map fun cell =>
                        if cell.1 = cy' then (cell.1, cell.2.filter (· ≠ e)) else cell :=
                    List.mem_map.mpr ⟨cell0, hc0mem, by rw [if_pos hc0]⟩
                  by_contra hne
                  have : (cell0.1, cell0.2.filter (· ≠ e)) ∈
                      ((col.2.map fun cell =>
                        if cell.1 = cy' then (cell.1, cell.2.filter (· ≠ e)) else cell).filter
                          fun cell => cell.2 ≠ []) :=
                    List.mem_filter.mpr ⟨hmem2, by simpa using hne⟩
                  rw [hkc] at this
                  cases this
                simp only [] at hdrop
                constructor
                · intro h
                  cases h
                · rintro ⟨hmem, hne⟩
                  have he' : e' ≠ e := fun hee => hne ⟨hee, by trivial, by trivial⟩
                  have : e' ∈ cell0.2.filter (· ≠ e) :=
                    List.mem_filter.mpr ⟨hmem, by simpa using he'⟩
                  rw [hdrop] at this
                  cases this
              · exfalso
                have hcf0 : (if cell0.1 = cy then (cell0.1, cell0.2.filter (· ≠ e)) else cell0)
                    = cell0 := by
                  rw [if_neg (by rw [hc0]; exact hy)]
                have hmem2 : cell0 ∈ col.2.map fun cell =>
                    if cell.1 = cy then (cell.1, cell.2.filter (· ≠ e)) else cell := by
                  refine List.mem_map.mpr ⟨cell0, hc0mem, hcf0⟩
                have : cell0 ∈ ((col.2.map fun cell =>
                    if cell.1 = cy then (cell.1, cell.2.filter (· ≠ e)) else cell).filter
                      fun cell => cell.2 ≠ []) :=
                  List.mem_filter.mpr ⟨hmem2, by simpa using hcellne col hcolmem cell0 hc0mem⟩
                rw [hkc] at this
                cases this
        · rw [show (decide (((col.2.map fun cell =>
              if cell.1 = cy then (cell.1, cell.2.filter (· ≠ e)) else cell).filter
                fun cell => cell.2 ≠ []) ≠ [])) = true by simpa using hkc]
          rw [if_pos rfl]
          simp only []
          have hcf : ∀ cell : Int × List GRef,
              ((fun cell => if cell.1 = cy then (cell.1, cell.2.filter (· ≠ e)) else cell)
                cell).1 = cell.1 := by
            intro cell
            dsimp only
            split <;> rfl
          rw [find?_mapfilter _ hcf _ cy' col.2 (hcells col hcolmem)]
          cases hfcy : col.2.find? (fun cell => cell.1 = cy') with
          | none => simp
          | some cell0 =>
              have hc0 : cell0.1 = cy' := by simpa using List.find?_some hfcy
              simp only []
              by_cases hy : cy' = cy
              · subst hy
                simp only [if_pos hc0]
                by_cases hk0 : (cell0.1, cell0.2.filter (· ≠ e)).2 = []
                · rw [show (decide ((cell0.1, cell0.2.filter (· ≠ e)).2 ≠ [])) = false
                      by simpa using hk0]
                  simp only [Bool.false_eq_true, if_false]
                  simp only [] at hk0
                  constructor
                  · intro h
                    cases h
                  · rintro ⟨hmem, hne⟩
                    have he' : e' ≠ e := fun hee => hne ⟨hee, by trivial, by trivial⟩
                    have : e' ∈ cell0.2.filter (· ≠ e) :=
                      List.mem_filter.mpr ⟨hmem, by simpa using he'⟩
                    rw [hk0] at this
                    cases this
                · rw [show (decide ((cell0.1, cell0.2.filter (· ≠ e)).2 ≠ [])) = true
                      by simpa using hk0]
                  rw [if_pos rfl]
                  simp only [List.mem_filter]
                  constructor
                  · rintro ⟨hmem, hne⟩
                    exact ⟨hmem, fun hand => by simp [hand.1] at hne⟩
                  · rintro ⟨hmem, hne⟩
                    refine ⟨hmem, ?_⟩
                    have he' : e' ≠ e := fun hee => hne ⟨hee, by trivial, by trivial⟩
                    simpa using he'
              · rw [if_neg (show ¬cell0.1 = cy from by rw [hc0]; exact hy)]
                rw [show (decide (cell0.2 ≠ [])) = true from by
                  simpa using hcellne col hcolmem cell0 (List.mem_of_find?_eq_some hfcy)]
                rw [if_pos rfl]
                simp [hy]
  · have hkeepall : ∀ c ∈ g.map (fun c => if c.1 = cx then
        (c.1, (c.2.map fun cell =>
            if cell.1 = cy then (cell.1, cell.2.filter (· ≠ e)) else cell).filter
          fun cell => cell.2 ≠ [])
      else c), (decide (c.2 ≠ [])) = false → (decide (c.1 = cx')) = false := by
      intro c hc hck
      obtain ⟨c0, hc0, heq⟩ := List.mem_map.mp hc
      by_cases h0 : c0.1 = cx
      · have h1 : c.1 = c0.1 := by rw [← heq]; exact hf c0
        simp only [decide_eq_false_iff_not]
        rw [h1, h0]
        omega
      · have h1 : c = c0 := by rw [← heq]; exact if_neg h0
        rw [h1] at hck
        simp only [decide_eq_false_iff_not, not_not] at hck
        exact absurd hck (hcolne c0 hc0)
    rw [find?_filter_keep _ _ _ hkeepall, find?_map_keypres _ hf cx' g]
    cases hg1 : g.find? (fun c => c.1 = cx') with
    | none => simp
    | some col1 =>
        have hc1 : col1.1 = cx' := by simpa using List.find?_some hg1
        simp only [Option.map]
        rw [if_neg (show ¬col1.1 = cx by rw [hc1]; exact hx)]
        simp [hx]

/-- Keys survive a key-preserving map. -/
theorem map_fst_keypres {α : Type} (f : (Int × α) → (Int × α)) (hf : ∀ c, (f c).1 = c.1)
    (l : List (Int × α)) : (l.map f).map Prod.fst = l.map Prod.fst := by
  rw [List.map_map]
  exact List.map_congr_left (fun a ha => hf a)

/-- Inserting into a cell keeps the grid well-formed. -/
theorem gridAddCell_wf (g : Grid) (hwf : GridWF g) (cx cy : Int) (e : GRef) :
    GridWF (gridAddCell g cx cy e) := by
  obtain ⟨hkeys, hcells, hcolne, hcellne⟩ := hwf
  unfold gridAddCell
  cases hfc : g.find? (fun c => c.1 = cx) with
  | none =>
      have hnotin : cx ∉ g.map Prod.fst := by
        intro hmem
        obtain ⟨c0, hc0, he⟩ := List.mem_map.mp hmem
        have := List.find?_eq_none.mp hfc c0 hc0
        simp [he] at this
      refine ⟨?_, ?_, ?_, ?_⟩
      · rw [List.map_append]
        refine List.nodup_append.mpr ⟨hkeys, List.nodup_singleton cx, ?_⟩
        intro a ha hb
        simp only [List.map_cons, List.map_nil, List.mem_singleton] at hb
        subst hb
        exact hnotin ha
      · intro c hc
        rcases List.mem_append.mp hc with h | h
        · exact hcells c h
        · rw [List.mem_singleton.mp h]
          simp
      · intro c hc
        rcases List.mem_append.mp hc with h | h
        · exact hcolne c h
        · rw [List.mem_singleton.mp h]
          simp
      · intro c hc cell hcell
        rcases List.mem_append.mp hc with h | h
        · exact hcellne c h cell hcell
        · rw [List.mem_singleton.mp h] at hcell
          simp only [List.mem_singleton] at hcell
          rw [hcell]
          simp
  | some col =>
      have hf : ∀ c : Int × List (Int × List GRef),
          ((fun c => if c.1 = cx then
              match c.2.find? (fun cell => cell.1 = cy) with
              | none => (c.1, c.2 ++ [(cy, [e])])
              | some _ => (c.1, c.2.map fun cell =>
                  if cell.1 = cy then (cell.1, setAdd cell.2 e) else cell)
            else c) c).1 = c.1 := by
        intro c
        dsimp only
        split
        · split <;> rfl
        · rfl
      refine ⟨?_, ?_, ?_, ?_⟩
      · rw [map_fst_keypres _ hf g]
        exact hkeys
      · intro c hc
        obtain ⟨c0, hc0, rfl⟩ := List.mem_map.mp hc
        by_cases h0 : c0.1 = cx
        · simp only [if_pos h0]
          cases hin : c0.2.find? (fun cell => cell.1 = cy) with
          | none =>
              simp only []
              rw [List.map_append]
              refine List.nodup_append.mpr ⟨hcells c0 hc0, by simp, ?_⟩
              intro a ha hb
              simp only [List.map_cons, List.map_nil, List.mem_singleton] at hb
              subst hb
              obtain ⟨cell0, hcl, he⟩ := List.mem_map.mp ha
              have := List.find?_eq_none.mp hin cell0 hcl
              simp [he] at this
          | some cell1 =>
              simp only []
              have hcf : ∀ cell : Int × List GRef,
                  ((fun cell => if cell.1 = cy then (cell.1, setAdd cell.2 e) else cell)
                    cell).1 = cell.1 := by
                intro cell
                dsimp only
                split <;> rfl
              rw [map_fst_keypres _ hcf c0.2]
              exact hcells c0 hc0
        · rw [if_neg h0]
          exact hcells c0 hc0
      · intro c hc
        obtain ⟨c0, hc0, rfl⟩ := List.mem_map.mp hc
        by_cases h0 : c0.1 = cx
        · simp only [if_pos h0]
          cases hin : c0.2.find? (fun cell => cell.1 = cy) with
          | none => simp
          | some cell1 =>
              simp only []
              have h2 := hcolne c0 hc0
              simpa using h2
        · rw [if_neg h0]
          exact hcolne c0 hc0
      · intro c hc cell hcell
        obtain ⟨c0, hc0, rfl⟩ := List.mem_map.mp hc
        by_cases h0 : c0.1 = cx
        · simp only [if_pos h0] at hcell
          cases hin : c0.2.find? (fun cell => cell.1 = cy) with
          | none =>
              rw [hin] at hcell
              simp only [] at hcell
              rcases List.mem_append.mp hcell with h | h
              · exact hcellne c0 hc0 cell h
              · simp only [List.mem_singleton] at h
                rw [h]
                simp
          | some cell1 =>
              rw [hin] at hcell
              simp only [] at hcell
              obtain ⟨cl0, hcl0, rfl⟩ := List.mem_map.mp hcell
              by_cases hy0 : cl0.1 = cy
              · simp only [if_pos hy0]
                simpa using setAdd_ne_nil cl0.2 e
              · rw [if_neg hy0]
                exact hcellne c0 hc0 cl0 hcl0
        · rw [if_neg h0] at hcell
          exact hcellne c0 hc0 cell hcell

/-- Removing from a cell keeps the grid well-formed. -/
theorem gridRemoveCell_wf (g : Grid) (hwf : GridWF g) (cx cy : Int) (e : GRef) :
    GridWF (gridRemoveCell g cx cy e) := by
  obtain ⟨hkeys, hcells, hcolne, hcellne⟩ := hwf
  unfold gridRemoveCell
  have hf : ∀ c : Int × List (Int × List GRef),
      ((fun c => if c.1 = cx then
          (c.1, (c.2.map fun cell =>
              if cell.1 = cy then (cell.1, cell.2.filter (· ≠ e)) else cell).filter
            fun cell => cell.2 ≠ [])
        else c) c).1 = c.1 := by
    intro c
    dsimp only
    split <;> rfl
  refine ⟨?_, ?_, ?_, ?_⟩
  · have hsub : List.Sublist (((g.map fun c => if c.1 = cx then
        (c.1, (c.2.map fun cell =>
            if cell.1 = cy then (cell.1, cell.2.filter (· ≠ e)) else cell).filter
          fun cell => cell.2 ≠ [])
      else c).filter fun c => c.2 ≠ []).map Prod.fst)
        ((g.map fun c => if c.1 = cx then
        (c.1, (c.2.map fun cell =>
            if cell.1 = cy then (cell.1, cell.2.filter (· ≠ e)) else cell).filter
          fun cell => cell.2 ≠ [])
      else c).map Prod.fst) := List.Sublist.map _ (List.filter_sublist _)
    have hnd2 : ((g.map fun c => if c.1 = cx then
        (c.1, (c.2.map fun cell =>
            if cell.1 = cy then (cell.1, cell.2.filter (· ≠ e)) else cell).filter
          fun cell => cell.2 ≠ [])
      else c).map Prod.fst).Nodup := by
      rw [map_fst_keypres _ hf g]
      exact hkeys
    exact hnd2.sublist hsub
  · intro c hc
    have hc2 := List.mem_of_mem_filter hc
    obtain ⟨c0, hc0, rfl⟩ := List.mem_map.mp hc2
    by_cases h0 : c0.1 = cx
    · simp only [if_pos h0]
      have hcf : ∀ cell : Int × List GRef,
          ((fun cell => if cell.1 = cy then (cell.1, cell.2.filter (· ≠ e)) else cell)
            cell).1 = cell.1 := by
        intro cell
        dsimp only
        split <;> rfl
      have hsub2 : List.Sublist (((c0.2.map fun cell =>
          if cell.1 = cy then (cell.1, cell.2.filter (· ≠ e)) else cell).filter
            fun cell => cell.2 ≠ []).map Prod.fst)
          ((c0.2.map fun cell =>
          if cell.1 = cy then (cell.1, cell.2.filter (· ≠ e)) else cell).map Prod.fst) :=
        List.Sublist.map _ (List.filter_sublist _)
      have hnd2 : ((c0.2.map fun cell =>
          if cell.1 = cy then (cell.1, cell.2.filter (· ≠ e)) else cell).map Prod.fst).Nodup := by
        rw [map_fst_keypres _ hcf c0.2]
        exact hcells c0 hc0
      exact hnd2.sublist hsub2
    · rw [if_neg h0]
      exact hcells c0 hc0
  · intro c hc
    have := (List.mem_filter.mp hc).2
    simpa using this
  · intro c hc cell hcell
    have hc2 := List.mem_of_mem_filter hc
    obtain ⟨c0, hc0, rfl⟩ := List.mem_map.mp hc2
    by_cases h0 : c0.1 = cx
    · simp only [if_pos h0] at hcell
      have := (List.mem_filter.mp hcell).2
      simpa using this
    · rw [if_neg h0] at hcell
      exact hcellne c0 hc0 cell hcell

/-- Folding insertions over a cell list keeps the grid well-formed. -/
theorem gridAddFold_wf (e : GRef) :
    ∀ (cs : List (Int × Int)) (g : Grid), GridWF g →
      GridWF (cs.foldl (fun g c => gridAddCell g c.1 c.2 e) g) := by
  intro cs
  induction cs with
  | nil => exact fun g h => h
  | cons c t ih => exact fun g h => ih _ (gridAddCell_wf g h c.1 c.2 e)

/-- Folding removals over a cell list keeps the grid well-formed. -/
theorem gridRemoveFold_wf (e : GRef) :
    ∀ (cs : List (Int × Int)) (g : Grid), GridWF g →
      GridWF (cs.foldl (fun g c => gridRemoveCell g c.1 c.2 e) g) := by
  intro cs
  induction cs with
  | nil => exact fun g h => h
  | cons c t ih => exact fun g h => ih _ (gridRemoveCell_wf g h c.1 c.2 e)

/-- Membership after inserting an entity into every cell of a list. -/
theorem gridAddFold_mem (e e' : GRef) (cx' cy' : Int) :
    ∀ (cs : List (Int × Int)) (g : Grid),
      (e' ∈ gridCellRefs (cs.foldl (fun g c => gridAddCell g c.1 c.2 e) g) cx' cy' ↔
        (e' ∈ gridCellRefs g cx' cy' ∨ (e' = e ∧ (cx', cy') ∈ cs))) := by
  intro cs
  induction cs with
  | nil => intro g; simp
  | cons c t ih =>
      intro g
      rw [List.foldl_cons, ih (gridAddCell g c.1 c.2 e), gridAddCell_mem]
      simp only [List.mem_cons, Prod.ext_iff]
      constructor
      · rintro ((h | ⟨h1, h2, h3⟩) | ⟨h1, h2⟩)
        · exact Or.inl h
        · exact Or.inr ⟨h1, Or.inl ⟨h2, h3⟩⟩
        · exact Or.inr ⟨h1, Or.inr h2⟩
      · rintro (h | ⟨h1, (⟨h2, h3⟩ | h2)⟩)
        · exact Or.inl (Or.inl h)
        · exact Or.inl (Or.inr ⟨h1, h2, h3⟩)
        · exact Or.inr ⟨h1, h2⟩

/-- Membership after removing an entity from every cell of a list. -/
theorem gridRemoveFold_mem (e e' : GRef) (cx' cy' : Int) :
    ∀ (cs : List (Int × Int)) (g : Grid), GridWF g →
      (e' ∈ gridCellRefs (cs.foldl (fun g c => gridRemoveCell g c.1 c.2 e) g) cx' cy' ↔
        (e' ∈ gridCellRefs g cx' cy' ∧ ¬(e' = e ∧ (cx', cy') ∈ cs))) := by
  intro cs
  induction cs with
  | nil => intro g _; simp
  | cons c t ih =>
      intro g hwf
      rw [List.foldl_cons, ih (gridRemoveCell g c.1 c.2 e) (gridRemoveCell_wf g hwf c.1 c.2 e),
          gridRemoveCell_mem g hwf]
      simp only [List.mem_cons, Prod.ext_iff]
      constructor
      · rintro ⟨⟨h1, h2⟩, h3⟩
        refine ⟨h1, ?_⟩
        rintro ⟨he, (⟨hc1, hc2⟩ | hmem)⟩
        · exact h2 ⟨he, hc1, hc2⟩
        · exact h3 ⟨he, hmem⟩
      · rintro ⟨h1, h2⟩
        refine ⟨⟨h1, ?_⟩, ?_⟩
        · rintro ⟨he, hc1, hc2⟩
          exact h2 ⟨he, Or.inl ⟨hc1, hc2⟩⟩
        · rintro ⟨he, hmem⟩
          exact h2 ⟨he, Or.inr hmem⟩

/-- DoomMap.#addToSpatialGrid keeps the grid well-formed. -/
theorem gridAdd_wf (g : Grid) (hwf : GridWF g) (e : GRef) (b : BoundsR) :
    GridWF (gridAdd g e b) := gridAddFold_wf e (cellsOfBounds b) g hwf

/-- DoomMap.#removeFromSpatialGrid keeps the grid well-formed. -/
theorem gridRemove_wf (g : Grid) (hwf : GridWF g) (e : GRef) (b : BoundsR) :
    GridWF (gridRemove g e b) := gridRemoveFold_wf e (cellsOfBounds b) g hwf

/-- Membership after DoomMap.#addToSpatialGrid. -/
theorem gridAdd_mem (g : Grid) (e : GRef) (b : BoundsR) (e' : GRef) (cx cy : Int) :
    e' ∈ gridCellRefs (gridAdd g e b) cx cy ↔
      (e' ∈ gridCellRefs g cx cy ∨ (e' = e ∧ (cx, cy) ∈ cellsOfBounds b)) :=
  gridAddFold_mem e e' cx cy (cellsOfBounds b) g

/-- Membership after DoomMap.#removeFromSpatialGrid. -/
theorem gridRemove_mem (g : Grid) (hwf : GridWF g) (e : GRef) (b : BoundsR)
    (e' : GRef) (cx cy : Int) :
    e' ∈ gridCellRefs (gridRemove g e b) cx cy ↔
      (e' ∈ gridCellRefs g cx cy ∧ ¬(e' = e ∧ (cx, cy) ∈ cellsOfBounds b)) :=
  gridRemoveFold_mem e e' cx cy (cellsOfBounds b) g hwf

/-- The grid agrees with the ledger: a registered entity sits in exactly
the cells of its bounds rectangle, an unregistered entity sits nowhere. -/
def GridMatches (r : List (GRef × BoundsR)) (g : Grid) : Prop :=
  (∀ e b, (e, b) ∈ r → ∀ cx cy,
      (e ∈ gridCellRefs g cx cy ↔ (cx, cy) ∈ cellsOfBounds b)) ∧
  (∀ e, regHas r e = false → ∀ cx cy, e ∉ gridCellRefs g cx cy)

/-- The registration invariant is preserved by every valid step sequence. -/
theorem gridInv_steps :
    ∀ (ops : List GridOp) (r : List (GRef × BoundsR)) (g : Grid),
      GridWF g → GridMatches r g → validFrom r ops = true →
      GridWF (ops.foldl applyOp g) ∧
        GridMatches (ops.foldl regApply r) (ops.foldl applyOp g) := by
  intro ops
  induction ops with
  | nil => intro r g hwf hm _; exact ⟨hwf, hm⟩
  | cons op t ih =>
      intro r g hwf hm hv
      cases op with
      | add e b =>
          simp only [validFrom, Bool.and_eq_true] at hv
          obtain ⟨hne, hv2⟩ := hv
          have hreg : regHas r e = false := by
            cases hr : regHas r e with
            | false => rfl
            | true => rw [hr] at hne; cases hne
          rw [List.foldl_cons, List.foldl_cons]
          refine ih (regApply r (.add e b)) (applyOp g (.add e b))
            (gridAdd_wf g hwf e b) ⟨?_, ?_⟩ hv2
          · intro e0 b0 hmem cx cy
            show e0 ∈ gridCellRefs (gridAdd g e b) cx cy ↔ _
            rcases List.mem_append.mp hmem with h | h
            · have hne0 : e0 ≠ e := by
                intro heq
                subst heq
                have : regHas r e0 = true :=
                  List.any_eq_true.mpr ⟨(e0, b0), h, by simp⟩
                rw [hreg] at this
                cases this
              rw [gridAdd_mem]
              constructor
              · rintro (h2 | h2)
                · exact (hm.1 e0 b0 h cx cy).mp h2
                · exact absurd h2.1 hne0
              · intro h2
                exact Or.inl ((hm.1 e0 b0 h cx cy).mpr h2)
            · simp only [List.mem_singleton] at h
              have he0 : e0 = e := congrArg Prod.fst h
              have hb0 : b0 = b := congrArg Prod.snd h
              subst he0
              subst hb0
              rw [gridAdd_mem]
              constructor
              · rintro (h2 | h2)
                · exact absurd h2 (hm.2 e0 hreg cx cy)
                · exact h2.2
              · intro h2
                exact Or.inr ⟨rfl, h2⟩
          · intro e0 hreg0 cx cy
            have h1 : regHas r e0 = false ∧ e0 ≠ e := by
              unfold regHas at hreg0 ⊢
              rw [show regApply r (.add e b) = r ++ [(e, b)] from rfl, List.any_append] at hreg0
              obtain ⟨ha, hb⟩ := Bool.or_eq_false_iff.mp hreg0
              refine ⟨ha, ?_⟩
              intro heq
              subst heq
              simp at hb
            show e0 ∉ gridCellRefs (gridAdd g e b) cx cy
            rw [gridAdd_mem]
            rintro (h2 | h2)
            · exact hm.2 e0 h1.1 cx cy h2
            · exact h1.2 h2.1
      | rem e b =>
          simp only [validFrom, Bool.and_eq_true, decide_eq_true_eq] at hv
          obtain ⟨hmem, hv2⟩ := hv
          rw [List.foldl_cons, List.foldl_cons]
          refine ih (regApply r (.rem e b)) (applyOp g (.rem e b))
            (gridRemove_wf g hwf e b) ⟨?_, ?_⟩ hv2
          · intro e0 b0 hmem0 cx cy
            show e0 ∈ gridCellRefs (gridRemove g e b) cx cy ↔ _
            have hmem1 := List.mem_filter.mp hmem0
            have hne0 : e0 ≠ e := by simpa using hmem1.2
            rw [gridRemove_mem g hwf]
            constructor
            · rintro ⟨h2, _⟩
              exact (hm.1 e0 b0 hmem1.1 cx cy).mp h2
            · intro h2
              refine ⟨(hm.1 e0 b0 hmem1.1 cx cy).mpr h2, ?_⟩
              rintro ⟨he, _⟩
              exact hne0 he
          · intro e0 hreg0 cx cy
            show e0 ∉ gridCellRefs (gridRemove g e b) cx cy
            by_cases he0 : e0 = e
            · subst he0
              rw [gridRemove_mem g hwf]
              rintro ⟨h2, h3⟩
              exact h3 ⟨rfl, (hm.1 e0 b hmem cx cy).mp h2⟩
            · have hreg1 : regHas r e0 = false := by
                cases hr : regHas r e0 with
                | false => rfl
                | true =>
                    exfalso
                    obtain ⟨p, hp, hpe⟩ := List.any_eq_true.mp hr
                    have hp1 : p.1 = e0 := by simpa using hpe
                    have : regHas (regApply r (.rem e b)) e0 = true := by
                      unfold regHas
                      refine List.any_eq_true.mpr ⟨p, ?_, by simpa using hp1⟩
                      refine List.mem_filter.mpr ⟨hp, ?_⟩
                      simp only [decide_eq_true_eq]
                      rw [hp1]
                      exact he0
                    rw [hreg0] at this
                    cases this
              rw [gridRemove_mem g hwf]
              rintro ⟨h2, _⟩
              exact hm.2 e0 hreg1 cx cy h2

/-- C9: for every valid sequence of grid registrations (as every public
operation performs them: each registered entity added once with its
bounds, removals with the registered bounds), every registered entity is
in exactly the cells of the floor-divided bounds ranges, and the grid
keeps no empty cell and no empty column. -/
theorem claim9_spatial_grid (ops : List GridOp) (hv : validOps ops = true) :
    (∀ e b, (e, b) ∈ regOf ops → ∀ cx cy,
        e ∈ gridCellRefs (applyOps ops) cx cy ↔
          (cellOf b.minX ≤ cx ∧ cx ≤ cellOf b.maxX ∧
           cellOf b.minY ≤ cy ∧ cy ≤ cellOf b.maxY)) ∧
    (∀ c ∈ applyOps ops, c.2 ≠ [] ∧ ∀ cell ∈ c.2, cell.2 ≠ []) := by
  have hbase_wf : GridWF ([] : Grid) := ⟨List.nodup_nil, by simp, by simp, by simp⟩
  have hbase_m : GridMatches [] [] := by
    constructor
    · intro e b hmem
      simp at hmem
    · intro e _ cx cy h
      cases h
  obtain ⟨hwf, hm⟩ := gridInv_steps ops [] [] hbase_wf hbase_m hv
  refine ⟨?_, ?_⟩
  · intro e b hmem cx cy
    rw [← mem_cellsOfBounds]
    exact hm.1 e b hmem cx cy
  · intro c hc
    exact ⟨hwf.2.2.1 c hc, hwf.2.2.2 c hc⟩

/-- A short valid registration run: a vertex and a line are added, the
vertex is removed again. -/
def demoOps : List GridOp :=
  [.add (.v 1) { minX := 0, minY := 0, maxX := 0, maxY := 0 },
   .add (.l 2) { minX := -10, minY := 5, maxX := 300, maxY := 5 },
   .rem (.v 1) { minX := 0, minY := 0, maxX := 0, maxY := 0 }]

/-- Witness: after the run the line is present in cell (2, 0), the last
cell of its bounds rectangle. -/
theorem claim9_witness :
    GRef.l 2 ∈ gridCellRefs (applyOps demoOps) 2 0 :=
  ((claim9_spatial_grid demoOps (by decide)).1 (GRef.l 2)
      { minX := -10, minY := 5, maxX := 300, maxY := 5 } (by decide) 2 0).mpr
    (by decide)
